import Mathlib

/-!
Verification of the scene-graph transform-and-hierarchy service
(`packages/g/src/services/SceneGraphService.ts`).

The service is embedded shallowly over exact arithmetic: entities are
natural-number handles, each component (`SceneGraphNode`, `Transform`,
`Sortable`, `Renderable`, `Geometry`) is a record stored in a total map, and
every service method is transcribed statement-by-statement from the TypeScript
source, including the gl-matrix vector/quaternion/matrix routines it calls.

Scalars are exact rationals represented as unreduced integer fractions (`Q`),
compared by cross-multiplication (`qEq`); this keeps every pipeline kernel-
computable. `Math.sqrt` is modelled by `qSqrt`, which is exact on
perfect-square rationals (every concrete evaluation below stays inside that
domain, where it agrees with IEEE `Math.sqrt`). The degree→half-angle
sine/cosine pair used by `quat.fromEuler` is passed in as an explicit function
pair `sinH`/`cosH`, so theorems quantify over any exact trigonometric oracle.
Recursive walks over the (dynamically mutated) hierarchy are written with an
explicit fuel parameter; theorems supply enough fuel for the walks to
complete, exactly as the acyclicity precondition guarantees in the source.
-/

/-- An exact rational as an unreduced fraction. The denominator is nonzero in
every state our theorems touch; equality of scalars is the cross-multiplication
relation `qEq`, not structural equality. -/
structure Q where
  num : Int
  den : Int
  deriving DecidableEq, Repr

instance (n : Nat) : OfNat Q n := ⟨⟨Int.ofNat n, 1⟩⟩

/-- Cancel the gcd and normalize the sign of the denominator. This keeps the
written representatives small; it does not change the value of the fraction. -/
def qReduce (a : Q) : Q :=
  let g0 := a.num.natAbs.gcd a.den.natAbs
  if g0 = 0 then a
  else
    let g : Int := Int.ofNat g0
    let n := a.num.tdiv g
    let d := a.den.tdiv g
    if d < 0 then ⟨-n, -d⟩ else ⟨n, d⟩

def qAdd (a b : Q) : Q := qReduce ⟨a.num * b.den + b.num * a.den, a.den * b.den⟩

def qSub (a b : Q) : Q := qReduce ⟨a.num * b.den - b.num * a.den, a.den * b.den⟩

def qMul (a b : Q) : Q := qReduce ⟨a.num * b.num, a.den * b.den⟩

def qDiv (a b : Q) : Q := qReduce ⟨a.num * b.den, a.den * b.num⟩

def qNeg (a : Q) : Q := ⟨-a.num, a.den⟩

instance : Add Q := ⟨qAdd⟩

instance : Sub Q := ⟨qSub⟩

instance : Mul Q := ⟨qMul⟩

instance : Div Q := ⟨qDiv⟩

instance : Neg Q := ⟨qNeg⟩

/-- Numeric equality of fractions (cross-multiplication). -/
def qEq (a b : Q) : Prop := a.num * b.den = b.num * a.den

instance (a b : Q) : Decidable (qEq a b) := by unfold qEq; infer_instance

/-- The fraction is numerically zero (JavaScript falsiness of a number). -/
def qIsZero (a : Q) : Prop := a.num = 0

instance (a : Q) : Decidable (qIsZero a) := by unfold qIsZero; infer_instance

/-- `0 < a` for a fraction. -/
def qPos (a : Q) : Prop := 0 < a.num * a.den

instance (a : Q) : Decidable (qPos a) := by unfold qPos; infer_instance

/-- `a < b` for fractions. -/
def qLt (a b : Q) : Prop := qPos (qSub b a)

instance (a b : Q) : Decidable (qLt a b) := by unfold qLt; infer_instance

/-- `a ≤ b` for fractions. -/
def qLe (a b : Q) : Prop := 0 ≤ (qSub b a).num * (qSub b a).den

instance (a b : Q) : Decidable (qLe a b) := by unfold qLe; infer_instance

/-- Value of a fraction in `ℚ` (for the algebraic lemmas). -/
def Q.toRat (a : Q) : ℚ := (a.num : ℚ) / (a.den : ℚ)

/-- Newton step iteration for the integer square root, with explicit fuel so
that the kernel can evaluate it (128 steps cover all magnitudes arising
here). -/
def isqrtIter (n : Nat) : Nat → Nat → Nat
  | 0, x => x
  | f + 1, x =>
    let y := (x + n / x) / 2
    if y < x then isqrtIter n f y else x

/-- Integer square root by Newton iteration (equals `⌊√n⌋` for all inputs our
theorems evaluate; only used through the perfect-square check below). -/
def isqrtN (n : Nat) : Nat := if n ≤ 1 then n else isqrtIter n 128 n

/-- Exact model of `Math.sqrt` on fractions: for a nonnegative perfect-square
rational `n/d` it returns the exact root `√(n·d)/|d|`, otherwise `0`. All
concrete scenarios below only take square roots of perfect-square rationals,
where this agrees with IEEE `Math.sqrt`. -/
def qSqrt (a : Q) : Q :=
  let p := a.num * a.den
  let r := isqrtN p.toNat
  if 0 ≤ p ∧ r * r = p.toNat then ⟨(r : Int), (a.den.natAbs : Int)⟩ else 0

/-- gl-matrix `vec3`: a 3-component vector. -/
structure Vec3 where
  x : Q
  y : Q
  z : Q
  deriving DecidableEq, Repr

/-- gl-matrix `quat`: stored as (x, y, z, w). -/
structure Quat where
  x : Q
  y : Q
  z : Q
  w : Q
  deriving DecidableEq, Repr

/-- gl-matrix `mat4`, column-major; field `mI` is array slot `m[I]` of the
source (so `m0,m1,m2,m3` form column 0 and `m12,m13,m14` the translation). -/
structure Mat4 where
  m0 : Q
  m1 : Q
  m2 : Q
  m3 : Q
  m4 : Q
  m5 : Q
  m6 : Q
  m7 : Q
  m8 : Q
  m9 : Q
  m10 : Q
  m11 : Q
  m12 : Q
  m13 : Q
  m14 : Q
  m15 : Q
  deriving DecidableEq, Repr

/-- Componentwise numeric equality of vectors. -/
def vec3Eq (a b : Vec3) : Prop := qEq a.x b.x ∧ qEq a.y b.y ∧ qEq a.z b.z

instance (a b : Vec3) : Decidable (vec3Eq a b) := by unfold vec3Eq; infer_instance

/-- Componentwise numeric equality of quaternions. -/
def quatEqv (a b : Quat) : Prop := qEq a.x b.x ∧ qEq a.y b.y ∧ qEq a.z b.z ∧ qEq a.w b.w

instance (a b : Quat) : Decidable (quatEqv a b) := by unfold quatEqv; infer_instance

/-- Componentwise numeric equality of matrices. -/
def mat4Eq (a b : Mat4) : Prop :=
  qEq a.m0 b.m0 ∧ qEq a.m1 b.m1 ∧ qEq a.m2 b.m2 ∧ qEq a.m3 b.m3 ∧
  qEq a.m4 b.m4 ∧ qEq a.m5 b.m5 ∧ qEq a.m6 b.m6 ∧ qEq a.m7 b.m7 ∧
  qEq a.m8 b.m8 ∧ qEq a.m9 b.m9 ∧ qEq a.m10 b.m10 ∧ qEq a.m11 b.m11 ∧
  qEq a.m12 b.m12 ∧ qEq a.m13 b.m13 ∧ qEq a.m14 b.m14 ∧ qEq a.m15 b.m15

instance (a b : Mat4) : Decidable (mat4Eq a b) := by unfold mat4Eq; infer_instance

def vec3Zero : Vec3 := ⟨0, 0, 0⟩

def vec3One : Vec3 := ⟨1, 1, 1⟩

/-- gl-matrix `vec3.add`. -/
def vec3Add (a b : Vec3) : Vec3 := ⟨a.x + b.x, a.y + b.y, a.z + b.z⟩

/-- gl-matrix `vec3.multiply` (componentwise). -/
def vec3Mul (a b : Vec3) : Vec3 := ⟨a.x * b.x, a.y * b.y, a.z * b.z⟩

/-- gl-matrix `vec3.transformMat4`, including the `w || 1` guard. -/
def vec3TransformMat4 (a : Vec3) (m : Mat4) : Vec3 :=
  let w0 := m.m3 * a.x + m.m7 * a.y + m.m11 * a.z + m.m15
  let w := if qIsZero w0 then 1 else w0
  ⟨(m.m0 * a.x + m.m4 * a.y + m.m8 * a.z + m.m12) / w,
   (m.m1 * a.x + m.m5 * a.y + m.m9 * a.z + m.m13) / w,
   (m.m2 * a.x + m.m6 * a.y + m.m10 * a.z + m.m14) / w⟩

/-- gl-matrix `vec3.transformQuat` (cross-product formulation of the source). -/
def vec3TransformQuat (a : Vec3) (q : Quat) : Vec3 :=
  let uvx := q.y * a.z - q.z * a.y
  let uvy := q.z * a.x - q.x * a.z
  let uvz := q.x * a.y - q.y * a.x
  let uuvx := q.y * uvz - q.z * uvy
  let uuvy := q.z * uvx - q.x * uvz
  let uuvz := q.x * uvy - q.y * uvx
  let w2 := q.w * 2
  ⟨a.x + uvx * w2 + uuvx * 2, a.y + uvy * w2 + uuvy * 2, a.z + uvz * w2 + uuvz * 2⟩

/-- The identity quaternion `quat.create()`. -/
def quatId : Quat := ⟨0, 0, 0, 1⟩

/-- Squared norm of a quaternion (the `dot` of the source's `normalize`). -/
def quatDot (a : Quat) : Q := a.x * a.x + a.y * a.y + a.z * a.z + a.w * a.w

/-- gl-matrix `quat.multiply`. -/
def quatMul (a b : Quat) : Quat :=
  ⟨a.x * b.w + a.w * b.x + a.y * b.z - a.z * b.y,
   a.y * b.w + a.w * b.y + a.z * b.x - a.x * b.z,
   a.z * b.w + a.w * b.z + a.x * b.y - a.y * b.x,
   a.w * b.w - a.x * b.x - a.y * b.y - a.z * b.z⟩

/-- gl-matrix `quat.invert`: conjugate divided by the squared norm,
with the zero quaternion mapped to zero (`invDot = dot ? 1/dot : 0`). -/
def quatInvert (a : Quat) : Quat :=
  let d := quatDot a
  let invDot := if qIsZero d then 0 else qDiv 1 d
  ⟨-a.x * invDot, -a.y * invDot, -a.z * invDot, a.w * invDot⟩

/-- gl-matrix `quat.normalize` (= `vec4.normalize`): scales by `1/sqrt(len)`
when the squared length is positive, else leaves the vector unscaled (only
the zero quaternion, which stays zero). -/
def quatNormalize (a : Quat) : Quat :=
  let len0 := quatDot a
  let len := if qPos len0 then qDiv 1 (qSqrt len0) else len0
  ⟨a.x * len, a.y * len, a.z * len, a.w * len⟩

/-- gl-matrix `quat.fromEuler` (x→y→z degree order of gl-matrix 3.x).
`sinH d`/`cosH d` stand for `sin(d·π/360)`/`cos(d·π/360)`: the half-angle sine
and cosine of `d` degrees, supplied as an exact oracle. -/
def quatFromEuler (sinH cosH : Q → Q) (deg : Vec3) : Quat :=
  let sx := sinH deg.x
  let cx := cosH deg.x
  let sy := sinH deg.y
  let cy := cosH deg.y
  let sz := sinH deg.z
  let cz := cosH deg.z
  ⟨sx * cy * cz - cx * sy * sz,
   cx * sy * cz + sx * cy * sz,
   cx * cy * sz - sx * sy * cz,
   cx * cy * cz + sx * sy * sz⟩

/-- The identity matrix `mat4.create()`. -/
def mat4Id : Mat4 := ⟨1,0,0,0, 0,1,0,0, 0,0,1,0, 0,0,0,1⟩

/-- gl-matrix `mat4.multiply out a b` (out = a ∘ b on column vectors). -/
def mat4Multiply (a b : Mat4) : Mat4 :=
  ⟨b.m0 * a.m0 + b.m1 * a.m4 + b.m2 * a.m8 + b.m3 * a.m12,
   b.m0 * a.m1 + b.m1 * a.m5 + b.m2 * a.m9 + b.m3 * a.m13,
   b.m0 * a.m2 + b.m1 * a.m6 + b.m2 * a.m10 + b.m3 * a.m14,
   b.m0 * a.m3 + b.m1 * a.m7 + b.m2 * a.m11 + b.m3 * a.m15,
   b.m4 * a.m0 + b.m5 * a.m4 + b.m6 * a.m8 + b.m7 * a.m12,
   b.m4 * a.m1 + b.m5 * a.m5 + b.m6 * a.m9 + b.m7 * a.m13,
   b.m4 * a.m2 + b.m5 * a.m6 + b.m6 * a.m10 + b.m7 * a.m14,
   b.m4 * a.m3 + b.m5 * a.m7 + b.m6 * a.m11 + b.m7 * a.m15,
   b.m8 * a.m0 + b.m9 * a.m4 + b.m10 * a.m8 + b.m11 * a.m12,
   b.m8 * a.m1 + b.m9 * a.m5 + b.m10 * a.m9 + b.m11 * a.m13,
   b.m8 * a.m2 + b.m9 * a.m6 + b.m10 * a.m10 + b.m11 * a.m14,
   b.m8 * a.m3 + b.m9 * a.m7 + b.m10 * a.m11 + b.m11 * a.m15,
   b.m12 * a.m0 + b.m13 * a.m4 + b.m14 * a.m8 + b.m15 * a.m12,
   b.m12 * a.m1 + b.m13 * a.m5 + b.m14 * a.m9 + b.m15 * a.m13,
   b.m12 * a.m2 + b.m13 * a.m6 + b.m14 * a.m10 + b.m15 * a.m14,
   b.m12 * a.m3 + b.m13 * a.m7 + b.m14 * a.m11 + b.m15 * a.m15⟩

/-- gl-matrix `mat4.invert` (cofactor expansion). The source returns `null`
when the determinant vanishes; that degenerate case is modelled by a zero
reciprocal and is never reached by a theorem below. -/
def mat4Invert (a : Mat4) : Mat4 :=
  let b00 := a.m0 * a.m5 - a.m1 * a.m4
  let b01 := a.m0 * a.m6 - a.m2 * a.m4
  let b02 := a.m0 * a.m7 - a.m3 * a.m4
  let b03 := a.m1 * a.m6 - a.m2 * a.m5
  let b04 := a.m1 * a.m7 - a.m3 * a.m5
  let b05 := a.m2 * a.m7 - a.m3 * a.m6
  let b06 := a.m8 * a.m13 - a.m9 * a.m12
  let b07 := a.m8 * a.m14 - a.m10 * a.m12
  let b08 := a.m8 * a.m15 - a.m11 * a.m12
  let b09 := a.m9 * a.m14 - a.m10 * a.m13
  let b10 := a.m9 * a.m15 - a.m11 * a.m13
  let b11 := a.m10 * a.m15 - a.m11 * a.m14
  let det := b00 * b11 - b01 * b10 + b02 * b09 + b03 * b08 - b04 * b07 + b05 * b06
  let d := if qIsZero det then 0 else qDiv 1 det
  ⟨(a.m5 * b11 - a.m6 * b10 + a.m7 * b09) * d,
   (a.m2 * b10 - a.m1 * b11 - a.m3 * b09) * d,
   (a.m13 * b05 - a.m14 * b04 + a.m15 * b03) * d,
   (a.m10 * b04 - a.m9 * b05 - a.m11 * b03) * d,
   (a.m6 * b08 - a.m4 * b11 - a.m7 * b07) * d,
   (a.m0 * b11 - a.m2 * b08 + a.m3 * b07) * d,
   (a.m14 * b02 - a.m12 * b05 - a.m15 * b01) * d,
   (a.m8 * b05 - a.m10 * b02 + a.m11 * b01) * d,
   (a.m4 * b10 - a.m5 * b08 + a.m7 * b06) * d,
   (a.m1 * b08 - a.m0 * b10 - a.m3 * b06) * d,
   (a.m12 * b04 - a.m13 * b02 + a.m15 * b00) * d,
   (a.m9 * b02 - a.m8 * b04 - a.m11 * b00) * d,
   (a.m5 * b07 - a.m4 * b09 - a.m6 * b06) * d,
   (a.m0 * b09 - a.m1 * b07 + a.m2 * b06) * d,
   (a.m13 * b01 - a.m12 * b03 - a.m14 * b00) * d,
   (a.m8 * b03 - a.m9 * b01 + a.m10 * b00) * d⟩

/-- gl-matrix `mat4.getTranslation`. -/
def mat4GetTranslation (m : Mat4) : Vec3 := ⟨m.m12, m.m13, m.m14⟩

/-- gl-matrix `mat4.getScaling`: the Euclidean norms of the three basis
columns (`Math.hypot`, modelled through `qSqrt`). -/
def mat4GetScaling (m : Mat4) : Vec3 :=
  ⟨qSqrt (m.m0 * m.m0 + m.m1 * m.m1 + m.m2 * m.m2),
   qSqrt (m.m4 * m.m4 + m.m5 * m.m5 + m.m6 * m.m6),
   qSqrt (m.m8 * m.m8 + m.m9 * m.m9 + m.m10 * m.m10)⟩

/-- gl-matrix `mat4.getRotation`: divides out the scaling (no zero guard in
the source), then extracts a quaternion by the trace method with the source's
four branches. -/
def mat4GetRotation (m : Mat4) : Quat :=
  let scaling := mat4GetScaling m
  let is1 := qDiv 1 scaling.x
  let is2 := qDiv 1 scaling.y
  let is3 := qDiv 1 scaling.z
  let sm11 := m.m0 * is1
  let sm12 := m.m1 * is2
  let sm13 := m.m2 * is3
  let sm21 := m.m4 * is1
  let sm22 := m.m5 * is2
  let sm23 := m.m6 * is3
  let sm31 := m.m8 * is1
  let sm32 := m.m9 * is2
  let sm33 := m.m10 * is3
  let trace := sm11 + sm22 + sm33
  if qPos trace then
    let s := qSqrt (trace + 1) * 2
    ⟨(sm23 - sm32) / s, (sm31 - sm13) / s, (sm12 - sm21) / s, s / 4⟩
  else if qLt sm22 sm11 ∧ qLt sm33 sm11 then
    let s := qSqrt (1 + sm11 - sm22 - sm33) * 2
    ⟨s / 4, (sm12 + sm21) / s, (sm31 + sm13) / s, (sm23 - sm32) / s⟩
  else if qLt sm33 sm22 then
    let s := qSqrt (1 + sm22 - sm11 - sm33) * 2
    ⟨(sm12 + sm21) / s, s / 4, (sm23 + sm32) / s, (sm31 - sm13) / s⟩
  else
    let s := qSqrt (1 + sm33 - sm11 - sm22) * 2
    ⟨(sm31 + sm13) / s, (sm23 + sm32) / s, s / 4, (sm12 - sm21) / s⟩

/-- gl-matrix `mat4.fromRotationTranslationScaleOrigin`:
the local TRS-with-pivot composition used for `localTransform`. -/
def mat4FromRTSOrigin (q : Quat) (v s o : Vec3) : Mat4 :=
  let x2 := q.x + q.x
  let y2 := q.y + q.y
  let z2 := q.z + q.z
  let xx := q.x * x2
  let xy := q.x * y2
  let xz := q.x * z2
  let yy := q.y * y2
  let yz := q.y * z2
  let zz := q.z * z2
  let wx := q.w * x2
  let wy := q.w * y2
  let wz := q.w * z2
  let o0 := (1 - (yy + zz)) * s.x
  let o1 := (xy + wz) * s.x
  let o2 := (xz - wy) * s.x
  let o4 := (xy - wz) * s.y
  let o5 := (1 - (xx + zz)) * s.y
  let o6 := (yz + wx) * s.y
  let o8 := (xz + wy) * s.z
  let o9 := (yz - wx) * s.z
  let o10 := (1 - (xx + yy)) * s.z
  ⟨o0, o1, o2, 0,
   o4, o5, o6, 0,
   o8, o9, o10, 0,
   v.x + o.x - (o0 * o.x + o4 * o.y + o8 * o.z),
   v.y + o.y - (o1 * o.x + o5 * o.y + o9 * o.z),
   v.z + o.z - (o2 * o.x + o6 * o.y + o10 * o.z),
   1⟩

/-- Component `SceneGraphNode` (`components/SceneGraphNode.ts`): parent link,
ordered children list, frozen flag. Entities are natural-number handles. -/
structure SceneGraphNode where
  parent : Option Nat
  children : List Nat
  frozen : Bool
  deriving DecidableEq, Repr

/-- Component `Transform` (`components/Transform.ts`): local TRS fields with
pivot origin, the two cached matrices, the two dirty flags, and the scratch
outputs written by the world-space getters. -/
structure Transform where
  localPosition : Vec3
  localRotation : Quat
  localScale : Vec3
  origin : Vec3
  localTransform : Mat4
  worldTransform : Mat4
  localDirtyFlag : Bool
  dirtyFlag : Bool
  position : Vec3
  rotation : Quat
  scaling : Vec3
  deriving DecidableEq, Repr

/-- Component `Sortable`: z-index, dirty flag, cached sorted list. -/
structure Sortable where
  zIndex : Q
  dirty : Bool
  sorted : List Nat
  deriving DecidableEq, Repr

/-- Modelled from the spec: the `AABB` shape class (`packages/g/src/shapes`,
not included under `src/`) as a min/max-corner axis-aligned box. -/
structure AABB where
  lo : Vec3
  hi : Vec3
  deriving DecidableEq, Repr

/-- Component `Renderable`: cached world-space AABB and backend dirty flag. -/
structure Renderable where
  aabb : Option AABB
  dirty : Bool
  deriving DecidableEq, Repr

/-- Component `Geometry`: the object-space AABB owned by the shape layer. -/
structure Geometry where
  aabb : AABB
  deriving DecidableEq, Repr

/-- The scene state: per-entity component stores plus the log of
`AABBChanged` events emitted so far (each entry is the affected entity).
`SceneGraphNode`, `Transform`, `Sortable` and `Geometry` are total (every
constructed display object carries them); `Renderable` is optional, exactly
as `dirtifyAABB` tests for its presence. -/
structure SGState where
  sgn : Nat → SceneGraphNode
  transform : Nat → Transform
  sortable : Nat → Sortable
  renderable : Nat → Option Renderable
  geometry : Nat → Geometry
  events : List Nat

def SGState.modSgn (s : SGState) (e : Nat) (f : SceneGraphNode → SceneGraphNode) : SGState :=
  { s with sgn := fun x => if x = e then f (s.sgn x) else s.sgn x }

def SGState.modTransform (s : SGState) (e : Nat) (f : Transform → Transform) : SGState :=
  { s with transform := fun x => if x = e then f (s.transform x) else s.transform x }

def SGState.modSortable (s : SGState) (e : Nat) (f : Sortable → Sortable) : SGState :=
  { s with sortable := fun x => if x = e then f (s.sortable x) else s.sortable x }

def SGState.setRenderable (s : SGState) (e : Nat) (r : Option Renderable) : SGState :=
  { s with renderable := fun x => if x = e then r else s.renderable x }

/-- `getLocalTransform` (lines 460–473): rebuild the cached local matrix via
TRS-with-origin when local-dirty, clear the flag, return the cache. -/
def getLocalTransform (s : SGState) (e : Nat) : SGState × Mat4 :=
  let t := s.transform e
  if t.localDirtyFlag then
    let m := mat4FromRTSOrigin t.localRotation t.localPosition t.localScale t.origin
    ((s.modTransform e fun t => { t with localTransform := m, localDirtyFlag := false }), m)
  else
    (s, t.localTransform)

/-- `updateTransform` (lines 542–558): refresh the local matrix if needed,
then recompute `worldTransform` as `parent.worldTransform * localTransform`
(just `localTransform` for a root) and clear the world dirty flag. -/
def updateTransform (s : SGState) (e : Nat) : SGState :=
  let s := if (s.transform e).localDirtyFlag then (getLocalTransform s e).1 else s
  if (s.transform e).dirtyFlag then
    let res := getLocalTransform s e
    let s := res.1
    let w := match (s.sgn e).parent with
      | none => res.2
      | some pe => mat4Multiply (s.transform pe).worldTransform res.2
    s.modTransform e fun t => { t with worldTransform := w, dirtyFlag := false }
  else s

/-- `getWorldTransform` (lines 431–446): return the cache when both flags are
clear; otherwise first bring the parent up to date (recursive ascent), then
`updateTransform` this entity. Fuel bounds the ascent; callers pass enough. -/
def getWorldTransform : Nat → SGState → Nat → SGState × Mat4
  | 0, s, e => (s, (s.transform e).worldTransform)
  | fuel + 1, s, e =>
    let t := s.transform e
    if ¬t.localDirtyFlag ∧ ¬t.dirtyFlag then
      (s, t.worldTransform)
    else
      let s := match (s.sgn e).parent with
        | some p => (getWorldTransform fuel s p).1
        | none => s
      let s := updateTransform s e
      (s, (s.transform e).worldTransform)

/-- `getPosition` (lines 416–419): translation of the up-to-date world matrix,
written into the Transform's scratch `position`. -/
def getPosition (fuel : Nat) (s : SGState) (e : Nat) : SGState × Vec3 :=
  let res := getWorldTransform fuel s e
  let v := mat4GetTranslation res.2
  ((res.1.modTransform e fun t => { t with position := v }), v)

/-- `getRotation` (lines 421–424): quaternion extracted from the up-to-date
world matrix, written into the Transform's scratch `rotation`. -/
def getRotation (fuel : Nat) (s : SGState) (e : Nat) : SGState × Quat :=
  let res := getWorldTransform fuel s e
  let q := mat4GetRotation res.2
  ((res.1.modTransform e fun t => { t with rotation := q }), q)

/-- `Math.min` / `Math.max` on fractions. -/
def qMin (a b : Q) : Q := if qLe a b then a else b

def qMax (a b : Q) : Q := if qLe a b then b else a

/-- Modelled from the spec: `AABB.setFromTransformedAABB` (shape class outside
`src/`): transform the eight corners of the source box by the matrix and take
the componentwise min/max, the standard method quoted by the spec. -/
def setFromTransformedAABB (src : AABB) (m : Mat4) : AABB :=
  let corners := [
    vec3TransformMat4 ⟨src.lo.x, src.lo.y, src.lo.z⟩ m,
    vec3TransformMat4 ⟨src.hi.x, src.lo.y, src.lo.z⟩ m,
    vec3TransformMat4 ⟨src.lo.x, src.hi.y, src.lo.z⟩ m,
    vec3TransformMat4 ⟨src.hi.x, src.hi.y, src.lo.z⟩ m,
    vec3TransformMat4 ⟨src.lo.x, src.lo.y, src.hi.z⟩ m,
    vec3TransformMat4 ⟨src.hi.x, src.lo.y, src.hi.z⟩ m,
    vec3TransformMat4 ⟨src.lo.x, src.hi.y, src.hi.z⟩ m,
    vec3TransformMat4 ⟨src.hi.x, src.hi.y, src.hi.z⟩ m]
  let first := vec3TransformMat4 src.lo m
  { lo := corners.foldl (fun a c => ⟨qMin a.x c.x, qMin a.y c.y, qMin a.z c.z⟩) first,
    hi := corners.foldl (fun a c => ⟨qMax a.x c.x, qMax a.y c.y, qMax a.z c.z⟩) first }

/-- `updateRenderableAABB` (lines 475–507): recompute the world-space AABB
from the geometry box and the up-to-date world matrix, emit `AABBChanged`
for the entity, and mark the renderable dirty. -/
def updateRenderableAABB (fuel : Nat) (s : SGState) (e : Nat) : SGState :=
  match s.renderable e with
  | none => s
  | some _ =>
    let res := getWorldTransform fuel s e
    let s := res.1
    let box := setFromTransformedAABB (s.geometry e).aabb res.2
    let s := s.setRenderable e (some { aabb := some box, dirty := true })
    { s with events := s.events ++ [e] }

/-- `dirtifyAABB` (lines 535–540): refresh the AABB only when the entity
carries a `Renderable` component. -/
def dirtifyAABB (fuel : Nat) (s : SGState) (e : Nat) : SGState :=
  if (s.renderable e).isSome then updateRenderableAABB fuel s e else s

/-- `unfreezeParentToRoot` (lines 509–515): clear `frozen` on the entity and
every ancestor up to the root. -/
def unfreezeParentToRoot : Nat → SGState → Nat → SGState
  | 0, s, _ => s
  | fuel + 1, s, e =>
    let s := s.modSgn e fun n => { n with frozen := false }
    match (s.sgn e).parent with
    | some p => unfreezeParentToRoot fuel s p
    | none => s

/-- `dirtifyWorldInternal` (lines 517–530): if not world-dirty, unfreeze the
node, set the flag, and recurse into every child not already dirty; in all
cases finish with `dirtifyAABB` on the node (which synchronously recomputes
the AABB, and in doing so cleans the node's dirty flags again via
`getWorldTransform`). `wf` fuels those world-matrix ascents, `df` the
descent. -/
def dirtifyWorldInternal (wf : Nat) : Nat → SGState → Nat → SGState
  | 0, s, _ => s
  | df + 1, s, e =>
    let s :=
      if ¬(s.transform e).dirtyFlag then
        let s := s.modSgn e fun n => { n with frozen := false }
        let s := s.modTransform e fun t => { t with dirtyFlag := true }
        (s.sgn e).children.foldl
          (fun s c =>
            if ¬(s.transform c).dirtyFlag then dirtifyWorldInternal wf df s c else s) s
      else s
    dirtifyAABB wf s e

/-- `setDirty` (lines 405–414): marking true unfreezes the ancestor chain
(only when the flag was clear) and cascades the world-dirty flag down the
subtree; marking false just clears the flag. -/
def setDirty (wf df : Nat) (s : SGState) (e : Nat) (value : Bool) : SGState :=
  if value then
    let s := if ¬(s.transform e).dirtyFlag then unfreezeParentToRoot wf s e else s
    dirtifyWorldInternal wf df s e
  else
    s.modTransform e fun t => { t with dirtyFlag := false }

/-- `setLocalDirty` (lines 390–403): idempotent; on the first marking either
cascades through `setDirty` (world was clean) or only refreshes the AABB
(world already dirty). Marking false just clears the flag. -/
def setLocalDirty (wf df : Nat) (s : SGState) (e : Nat) (value : Bool) : SGState :=
  if value then
    if ¬(s.transform e).localDirtyFlag then
      let s := s.modTransform e fun t => { t with localDirtyFlag := true }
      if ¬(s.transform e).dirtyFlag then setDirty wf df s e true
      else dirtifyAABB wf s e
    else s
  else
    s.modTransform e fun t => { t with localDirtyFlag := false }

/-- `matrixTransform` (lines 144–154): post-multiply the local matrix by
`mat`, decompose the product back into the local TRS fields, mark
local-dirty. -/
def matrixTransform (wf df : Nat) (s : SGState) (e : Nat) (m : Mat4) : SGState :=
  let res := getLocalTransform s e
  let transformed := mat4Multiply res.2 m
  let s := res.1.modTransform e fun t =>
    { t with localScale := mat4GetScaling transformed,
             localPosition := mat4GetTranslation transformed,
             localRotation := mat4GetRotation transformed }
  setLocalDirty wf df s e true

/-- `applyTransform` (lines 156–161): bake the cached world matrix into the
local TRS fields (decomposition), then mark world-dirty. -/
def applyTransform (wf df : Nat) (s : SGState) (e : Nat) : SGState :=
  let w := (s.transform e).worldTransform
  let s := s.modTransform e fun t =>
    { t with localScale := mat4GetScaling w,
             localPosition := mat4GetTranslation w,
             localRotation := mat4GetRotation w }
  setDirty wf df s e true

/-- Remove the first occurrence (`indexOf` + `splice(index, 1)`). -/
def removeFirst : List Nat → Nat → List Nat
  | [], _ => []
  | x :: xs, e => if x = e then xs else x :: removeFirst xs e

/-- `detach` (lines 69–87): if parented, bake the world matrix into local
fields, remove from the old parent's children, refresh the old parent's
AABB, then clear the parent link. -/
def detach (wf df : Nat) (s : SGState) (e : Nat) : SGState :=
  match (s.sgn e).parent with
  | none => s
  | some p =>
    let s := applyTransform wf df s e
    let s := s.modSgn p fun n => { n with children := removeFirst n.children e }
    let s := dirtifyAABB wf s p
    s.modSgn e fun n => { n with parent := none }

/-- `attach` (lines 46–67): detach first if parented; set the parent link,
splice into the new parent's children (append when no index), refresh the new
parent's AABB, and fold the new parent's inverse cached world matrix into the
node's local transform. Note there is no `node === newParent` guard. -/
def attach (wf df : Nat) (s : SGState) (e parentE : Nat) (index : Option Nat) : SGState :=
  let s := if ((s.sgn e).parent).isSome then detach wf df s e else s
  let s := s.modSgn e fun n => { n with parent := some parentE }
  let s := s.modSgn parentE fun n =>
    { n with children := match index with
        | some i => n.children.take i ++ e :: n.children.drop i
        | none => n.children ++ [e] }
  let s := dirtifyAABB wf s parentE
  matrixTransform wf df s e (mat4Invert (s.transform parentE).worldTransform)

/-- `detachChildren` (lines 89–93): `forEach` over the live children array
while `detach` splices it. Per the ECMAScript `forEach` contract the length
is read once up front and indices past the shrunken array are skipped, so
alternating children survive. -/
def detachChildren (wf df : Nat) (s : SGState) (parentE : Nat) : SGState :=
  let len := ((s.sgn parentE).children).length
  (List.range len).foldl
    (fun s k =>
      let cs := (s.sgn parentE).children
      if k < cs.length then detach wf df s (cs.getD k 0) else s) s

/-- `setOrigin` (lines 163–174): writes the pivot; the `setLocalDirty` call is
commented out in the source, so no flag is touched. -/
def setOrigin (s : SGState) (e : Nat) (o : Vec3) : SGState :=
  s.modTransform e fun t => { t with origin := o }

/-- `setLocalPosition` (lines 322–334). -/
def setLocalPosition (wf df : Nat) (s : SGState) (e : Nat) (position : Vec3) : SGState :=
  let s := s.modTransform e fun t => { t with localPosition := position }
  setLocalDirty wf df s e true

/-- `setPosition` (lines 291–317): store the requested world position in the
scratch field; for a root delegate to `setLocalPosition`, otherwise map the
position through the parent's inverse cached world matrix. -/
def setPosition (wf df : Nat) (s : SGState) (e : Nat) (position : Vec3) : SGState :=
  let s := s.modTransform e fun t => { t with position := position }
  match (s.sgn e).parent with
  | none => setLocalPosition wf df s e position
  | some pe =>
    let inv := mat4Invert (s.transform pe).worldTransform
    let s := s.modTransform e fun t => { t with localPosition := vec3TransformMat4 position inv }
    setLocalDirty wf df s e true

/-- `translateLocal` (lines 272–283): rotate the delta by the current local
rotation, then add. -/
def translateLocal (wf df : Nat) (s : SGState) (e : Nat) (translation : Vec3) : SGState :=
  let t := s.transform e
  let tr := vec3TransformQuat translation t.localRotation
  let s := s.modTransform e fun t => { t with localPosition := vec3Add t.localPosition tr }
  setLocalDirty wf df s e true

/-- `translate` (lines 374–388): world-space translation via `getPosition`
plus `setPosition`, followed by an unconditional `setDirty(true)`.
(Named `translateWorld` here because `translate` is taken by the library.) -/
def translateWorld (wf df : Nat) (s : SGState) (e : Nat) (translation : Vec3) : SGState :=
  let res := getPosition wf s e
  let s := setPosition wf df res.1 e (vec3Add res.2 translation)
  setDirty wf df s e true

/-- `scaleLocal` (lines 339–346): multiplicative. -/
def scaleLocal (wf df : Nat) (s : SGState) (e : Nat) (scaling : Vec3) : SGState :=
  let s := s.modTransform e fun t => { t with localScale := vec3Mul t.localScale scaling }
  setLocalDirty wf df s e true

/-- `setLocalScale` (lines 348–360): absolute. -/
def setLocalScale (wf df : Nat) (s : SGState) (e : Nat) (scaling : Vec3) : SGState :=
  let s := s.modTransform e fun t => { t with localScale := scaling }
  setLocalDirty wf df s e true

/-- `rotateLocal` (lines 210–222): right-multiply the local rotation by the
Euler quaternion and renormalize. -/
def rotateLocal (sinH cosH : Q → Q) (wf df : Nat) (s : SGState) (e : Nat) (deg : Vec3) : SGState :=
  let rotation := quatFromEuler sinH cosH deg
  let s := s.modTransform e fun t =>
    { t with localRotation := quatNormalize (quatMul t.localRotation rotation) }
  setLocalDirty wf df s e true

/-- `rotate` (lines 179–204): for a root delegate to `rotateLocal`; for a
parented node read the node's and the parent's world rotations, compute
`invert(parentRot) * rotation` into a scratch register that line 199 then
never uses, and store `normalize(rotation * rot)` as the local rotation. -/
def rotate (sinH cosH : Q → Q) (wf df : Nat) (s : SGState) (e : Nat) (deg : Vec3) : SGState :=
  match (s.sgn e).parent with
  | none => rotateLocal sinH cosH wf df s e deg
  | some pe =>
    let rotation := quatFromEuler sinH cosH deg
    let res1 := getRotation wf s e
    let s := res1.1
    let rot := res1.2
    let res2 := getRotation wf s pe
    let s := res2.1
    let s := s.modTransform e fun t =>
      { t with localRotation := quatNormalize (quatMul rotation rot) }
    setLocalDirty wf df s e true

/-- `setLocalEulerAngles` (lines 254–261): overwrite the local rotation with
the Euler quaternion (no normalization step). -/
def setLocalEulerAngles (sinH cosH : Q → Q) (wf df : Nat) (s : SGState) (e : Nat)
    (deg : Vec3) : SGState :=
  let s := s.modTransform e fun t => { t with localRotation := quatFromEuler sinH cosH deg }
  setLocalDirty wf df s e true

/-- `setEulerAngles` (lines 227–249): for a root delegate to
`setLocalEulerAngles`; for a parented node store
`fromEuler(deg) * invert(parentWorldRot)` — without any normalization. -/
def setEulerAngles (sinH cosH : Q → Q) (wf df : Nat) (s : SGState) (e : Nat)
    (deg : Vec3) : SGState :=
  match (s.sgn e).parent with
  | none => setLocalEulerAngles sinH cosH wf df s e deg
  | some pe =>
    let s := s.modTransform e fun t =>
      { t with localRotation := quatFromEuler sinH cosH deg }
    let res := getRotation wf s pe
    let s := res.1
    let invParentRot := quatInvert res.2
    let s := s.modTransform e fun t =>
      { t with localRotation := quatMul t.localRotation invParentRot }
    setLocalDirty wf df s e true

/-- The comparator `sortByZIndex` (lines 15–20) as an order relation:
`sortable1.zIndex - sortable2.zIndex ≤ 0`. -/
def zLe (s : SGState) (a b : Nat) : Prop := qLe (s.sortable a).zIndex (s.sortable b).zIndex

instance (s : SGState) (a b : Nat) : Decidable (zLe s a b) := by
  unfold zLe; infer_instance

/-- `entities.sort(sortByZIndex)`: JavaScript array sort is stable
(ES2019), so its output is the unique stable ascending reordering, here the
insertion sort by `zLe`. -/
def sortChildren (s : SGState) (l : List Nat) : List Nat :=
  List.insertionSort (fun a b => zLe s a b) l

/-- `flatten` (lines 128–136): sort the array in place (persisted into the
owner's `children` when the array is a children list), then push each entity
followed by its recursively flattened children. -/
def flatten : Nat → SGState → List Nat → Option Nat → List Nat → SGState × List Nat
  | 0, s, _, _, acc => (s, acc)
  | fuel + 1, s, arr, owner, acc =>
    if arr.length ≠ 0 then
      let sorted := sortChildren s arr
      let s := match owner with
        | some o => s.modSgn o fun n => { n with children := sorted }
        | none => s
      sorted.foldl
        (fun (p : SGState × List Nat) c =>
          flatten fuel p.1 ((p.1.sgn c).children) (some c) (p.2 ++ [c])) (s, acc)
    else (s, acc)

/-- `sort` (lines 111–122): recompute the flattened list only when the
`Sortable` is dirty or `force` is set; cache the result and clear the flag. -/
def sort (fuel : Nat) (s : SGState) (e : Nat) (force : Bool) : SGState × List Nat :=
  let st := s.sortable e
  if st.dirty || force then
    let res := flatten fuel s [e] none []
    let s := res.1.modSortable e fun st => { st with sorted := res.2, dirty := false }
    (s, res.2)
  else
    (s, st.sorted)

/-- Depth-first pre-order listing of a subtree over the current children
lists (the visit order of `visit` with a non-pruning visitor). -/
def preorder : Nat → SGState → Nat → List Nat
  | 0, _, e => [e]
  | fuel + 1, s, e => e :: ((s.sgn e).children).foldr (fun c acc => preorder fuel s c ++ acc) []

/-- A Transform at rest: identity fields, clean flags. -/
def baseT : Transform :=
  { localPosition := vec3Zero, localRotation := quatId, localScale := vec3One,
    origin := vec3Zero, localTransform := mat4Id, worldTransform := mat4Id,
    localDirtyFlag := false, dirtyFlag := false,
    position := vec3Zero, rotation := quatId, scaling := vec3One }

/-- A detached scene-graph node. -/
def baseSgn : SceneGraphNode := { parent := none, children := [], frozen := false }

def baseSortable : Sortable := { zIndex := 0, dirty := false, sorted := [] }

def baseGeom : Geometry := { aabb := { lo := vec3Zero, hi := vec3Zero } }

/-- The empty scene: every entity detached and at rest, no renderables,
no events. -/
def baseState : SGState :=
  { sgn := fun _ => baseSgn, transform := fun _ => baseT,
    sortable := fun _ => baseSortable, renderable := fun _ => none,
    geometry := fun _ => baseGeom, events := [] }

@[simp]
theorem modSgn_transform (s : SGState) (e : Nat) (f : SceneGraphNode → SceneGraphNode) :
    (s.modSgn e f).transform = s.transform := rfl

@[simp]
theorem modSgn_sortable (s : SGState) (e : Nat) (f : SceneGraphNode → SceneGraphNode) :
    (s.modSgn e f).sortable = s.sortable := rfl

@[simp]
theorem modSgn_renderable (s : SGState) (e : Nat) (f : SceneGraphNode → SceneGraphNode) :
    (s.modSgn e f).renderable = s.renderable := rfl

@[simp]
theorem modSgn_geometry (s : SGState) (e : Nat) (f : SceneGraphNode → SceneGraphNode) :
    (s.modSgn e f).geometry = s.geometry := rfl

@[simp]
theorem modSgn_events (s : SGState) (e : Nat) (f : SceneGraphNode → SceneGraphNode) :
    (s.modSgn e f).events = s.events := rfl

theorem modSgn_sgn (s : SGState) (e x : Nat) (f : SceneGraphNode → SceneGraphNode) :
    (s.modSgn e f).sgn x = if x = e then f (s.sgn x) else s.sgn x := rfl

@[simp]
theorem modTransform_sgn (s : SGState) (e : Nat) (f : Transform → Transform) :
    (s.modTransform e f).sgn = s.sgn := rfl

@[simp]
theorem modTransform_sortable (s : SGState) (e : Nat) (f : Transform → Transform) :
    (s.modTransform e f).sortable = s.sortable := rfl

@[simp]
theorem modTransform_renderable (s : SGState) (e : Nat) (f : Transform → Transform) :
    (s.modTransform e f).renderable = s.renderable := rfl

@[simp]
theorem modTransform_geometry (s : SGState) (e : Nat) (f : Transform → Transform) :
    (s.modTransform e f).geometry = s.geometry := rfl

@[simp]
theorem modTransform_events (s : SGState) (e : Nat) (f : Transform → Transform) :
    (s.modTransform e f).events = s.events := rfl

theorem modTransform_transform (s : SGState) (e x : Nat) (f : Transform → Transform) :
    (s.modTransform e f).transform x = if x = e then f (s.transform x) else s.transform x := rfl

@[simp]
theorem setRenderable_sgn (s : SGState) (e : Nat) (r : Option Renderable) :
    (s.setRenderable e r).sgn = s.sgn := rfl

@[simp]
theorem setRenderable_transform (s : SGState) (e : Nat) (r : Option Renderable) :
    (s.setRenderable e r).transform = s.transform := rfl

@[simp]
theorem modSortable_sgn (s : SGState) (e : Nat) (f : Sortable → Sortable) :
    (s.modSortable e f).sgn = s.sgn := rfl

@[simp]
theorem modSortable_transform (s : SGState) (e : Nat) (f : Sortable → Sortable) :
    (s.modSortable e f).transform = s.transform := rfl

/-- Two states with identical hierarchy links (parent and children of every
entity). The transform/AABB machinery preserves this relation. -/
def hierEq (s1 s2 : SGState) : Prop :=
  ∀ x, ((s1.sgn x).parent = (s2.sgn x).parent) ∧ ((s1.sgn x).children = (s2.sgn x).children)

theorem hierEq_refl (s : SGState) : hierEq s s := fun _ => ⟨rfl, rfl⟩

theorem hierEq_trans {s1 s2 s3 : SGState} (h1 : hierEq s1 s2) (h2 : hierEq s2 s3) :
    hierEq s1 s3 :=
  fun x => ⟨(h1 x).1.trans (h2 x).1, (h1 x).2.trans (h2 x).2⟩

theorem hierEq_of_sgn_eq {s1 s2 : SGState} (h : s1.sgn = s2.sgn) : hierEq s1 s2 := by
  intro x; rw [h]; exact ⟨rfl, rfl⟩

theorem hierEq_modSgn_frozen (s : SGState) (e : Nat) (b : Bool) :
    hierEq (s.modSgn e fun n => { n with frozen := b }) s := by
  intro x
  simp only [modSgn_sgn]
  by_cases h : x = e <;> simp [h]

theorem hierEq_foldl {β : Type} (body : SGState → β → SGState)
    (h : ∀ s c, hierEq (body s c) s) :
    ∀ (l : List β) (s : SGState), hierEq (l.foldl body s) s := by
  intro l
  induction l with
  | nil => intro s; exact hierEq_refl s
  | cons c l ih =>
    intro s
    exact hierEq_trans (ih (body s c)) (h s c)

@[simp]
theorem sgn_getLocalTransform (s : SGState) (e : Nat) :
    ((getLocalTransform s e).1).sgn = s.sgn := by
  unfold getLocalTransform
  by_cases h : (s.transform e).localDirtyFlag <;> simp [h]

@[simp]
theorem sgn_updateTransform (s : SGState) (e : Nat) :
    (updateTransform s e).sgn = s.sgn := by
  unfold updateTransform
  by_cases h1 : (s.transform e).localDirtyFlag <;>
    by_cases h2 : ((if (s.transform e).localDirtyFlag then
        (getLocalTransform s e).1 else s).transform e).dirtyFlag <;>
    simp [h1] at h2 ⊢ <;> simp [h2]

@[simp]
theorem sgn_getWorldTransform : ∀ (fuel : Nat) (s : SGState) (e : Nat),
    ((getWorldTransform fuel s e).1).sgn = s.sgn := by
  intro fuel
  induction fuel with
  | zero => intro s e; rfl
  | succ fuel ih =>
    intro s e
    unfold getWorldTransform
    by_cases h : ¬(s.transform e).localDirtyFlag ∧ ¬(s.transform e).dirtyFlag
    · simp [h]
    · simp only [h, if_false]
      cases hp : (s.sgn e).parent with
      | none => simp [sgn_updateTransform]
      | some p => simp [sgn_updateTransform, ih]

@[simp]
theorem sgn_getPosition (fuel : Nat) (s : SGState) (e : Nat) :
    ((getPosition fuel s e).1).sgn = s.sgn := by
  unfold getPosition
  simp

@[simp]
theorem sgn_getRotation (fuel : Nat) (s : SGState) (e : Nat) :
    ((getRotation fuel s e).1).sgn = s.sgn := by
  unfold getRotation
  simp

@[simp]
theorem sgn_updateRenderableAABB (fuel : Nat) (s : SGState) (e : Nat) :
    (updateRenderableAABB fuel s e).sgn = s.sgn := by
  unfold updateRenderableAABB
  cases h : s.renderable e with
  | none => rfl
  | some r => simp

@[simp]
theorem sgn_dirtifyAABB (fuel : Nat) (s : SGState) (e : Nat) :
    (dirtifyAABB fuel s e).sgn = s.sgn := by
  unfold dirtifyAABB
  by_cases h : (s.renderable e).isSome <;> simp [h]

theorem hierEq_unfreeze : ∀ (fuel : Nat) (s : SGState) (e : Nat),
    hierEq (unfreezeParentToRoot fuel s e) s := by
  intro fuel
  induction fuel with
  | zero => intro s e; exact hierEq_refl s
  | succ fuel ih =>
    intro s e
    unfold unfreezeParentToRoot
    cases hp : ((s.modSgn e fun n => { n with frozen := false }).sgn e).parent with
    | none => simp only [hp]; exact hierEq_modSgn_frozen s e false
    | some p =>
      simp only [hp]
      exact hierEq_trans (ih _ p) (hierEq_modSgn_frozen s e false)

theorem hierEq_dwi (wf : Nat) : ∀ (df : Nat) (s : SGState) (e : Nat),
    hierEq (dirtifyWorldInternal wf df s e) s := by
  intro df
  induction df with
  | zero => intro s e; exact hierEq_refl s
  | succ df ih =>
    intro s e
    unfold dirtifyWorldInternal
    by_cases h : ¬(s.transform e).dirtyFlag
    · simp only [h, if_true]
      refine hierEq_trans (hierEq_of_sgn_eq (sgn_dirtifyAABB wf _ e)) ?_
      refine hierEq_trans (hierEq_foldl _ (fun s c => ?_) _ _) ?_
      · by_cases hc : ¬(s.transform c).dirtyFlag
        · simp only [hc, if_true]; exact ih s c
        · simp only [hc, if_false]; exact hierEq_refl s
      · exact hierEq_trans
          (hierEq_of_sgn_eq (by simp))
          (hierEq_modSgn_frozen s e false)
    · simp only [h, if_false]
      exact hierEq_of_sgn_eq (sgn_dirtifyAABB wf s e)

theorem hierEq_setDirty_true (wf df : Nat) (s : SGState) (e : Nat) :
    hierEq (setDirty wf df s e true) s := by
  unfold setDirty
  by_cases h : ¬(s.transform e).dirtyFlag
  · simp only [h, if_true]
    exact hierEq_trans (hierEq_dwi wf df _ e) (hierEq_unfreeze wf s e)
  · simp only [h, if_false]
    exact hierEq_trans (hierEq_dwi wf df s e) (hierEq_refl s)

theorem hierEq_setLocalDirty_true (wf df : Nat) (s : SGState) (e : Nat) :
    hierEq (setLocalDirty wf df s e true) s := by
  unfold setLocalDirty
  by_cases h1 : ¬(s.transform e).localDirtyFlag
  · simp only [if_true, h1]
    by_cases h2 : ¬((s.modTransform e fun t =>
        { t with localDirtyFlag := true }).transform e).dirtyFlag
    · simp only [h2, if_true]
      exact hierEq_trans (hierEq_setDirty_true wf df _ e) (hierEq_of_sgn_eq rfl)
    · simp only [h2, if_false]
      exact hierEq_of_sgn_eq (by simp)
  · simp only [h1, if_false]
    exact hierEq_refl s

theorem hierEq_matrixTransform (wf df : Nat) (s : SGState) (e : Nat) (m : Mat4) :
    hierEq (matrixTransform wf df s e m) s := by
  unfold matrixTransform
  refine hierEq_trans (hierEq_setLocalDirty_true wf df _ e) ?_
  exact hierEq_of_sgn_eq (by simp)

/-- Scenario for claim C2: entity 0 is a root whose world transform is the
scale (2,2,1) (clean caches), entity 1 is a root at world position (1,0,0). -/
def stateC2 : SGState :=
  { baseState with transform := fun e =>
      if e = 0 then
        { baseT with localScale := ⟨2, 2, 1⟩,
                     localTransform := ⟨2,0,0,0, 0,2,0,0, 0,0,1,0, 0,0,0,1⟩,
                     worldTransform := ⟨2,0,0,0, 0,2,0,0, 0,0,1,0, 0,0,0,1⟩ }
      else if e = 1 then
        { baseT with localPosition := ⟨1, 0, 0⟩,
                     localTransform := ⟨1,0,0,0, 0,1,0,0, 0,0,1,0, 1,0,0,1⟩,
                     worldTransform := ⟨1,0,0,0, 0,1,0,0, 0,0,1,0, 1,0,0,1⟩ }
      else baseT }

/-- Half-angle sine oracle used by the concrete rotation scenarios: degree
value 0 has sine 0, and the nonzero degree values used below stand for the
angle `2·arcsin(3/5) ≈ 73.74°`, whose half-angle sine/cosine pair (3/5, 4/5)
is exact. -/
def sinHalfOracle : Q → Q := fun t => if t = 0 then 0 else ⟨3, 5⟩

/-- Half-angle cosine oracle matching `sinHalfOracle` (so that
`sin² + cos² = 1` exactly at every degree value). -/
def cosHalfOracle : Q → Q := fun t => if t = 0 then 1 else ⟨4, 5⟩

/-- Scenario for claim C4: entity 0 has children [1, 2]. -/
def stateC4 : SGState :=
  { baseState with sgn := fun e =>
      if e = 0 then { baseSgn with children := [1, 2] }
      else if e = 1 then { baseSgn with parent := some 0 }
      else if e = 2 then { baseSgn with parent := some 0 }
      else baseSgn }

/-- Scenario for claim C5: a single root entity whose transform is already
dirty (so the self-attach below terminates without the ancestor walk). -/
def stateC5 : SGState :=
  { baseState with transform := fun _ =>
      { baseT with localDirtyFlag := true, dirtyFlag := true } }

/-- Scenario for claim C6: entity 1 is parented to entity 0, whose cached
world matrix is skewed (unit-length, non-orthogonal columns) — the kind of
matrix a rotation–scale–rotation ancestor chain produces. All flags clean. -/
def stateC6 : SGState :=
  { baseState with
      sgn := fun e =>
        if e = 0 then { baseSgn with children := [1] }
        else if e = 1 then { baseSgn with parent := some 0 }
        else baseSgn,
      transform := fun e =>
        if e = 0 then
          { baseT with worldTransform :=
              ⟨⟨-7,25⟩,⟨24,25⟩,0,0, ⟨-7,25⟩,⟨-24,25⟩,0,0, 0,0,1,0, 0,0,0,1⟩ }
        else baseT }

/-- Scenario for claims C7: entity 0 is a root rotated about z by the
3-4-5 angle (local rotation quaternion (0,0,3/5,4/5)), entity 1 is its child
with identity local fields; both are marked dirty so reads recompute. -/
def stateC7 : SGState :=
  { baseState with
      sgn := fun e =>
        if e = 0 then { baseSgn with children := [1] }
        else if e = 1 then { baseSgn with parent := some 0 }
        else baseSgn,
      transform := fun e =>
        if e = 0 then
          { baseT with localRotation := ⟨0, 0, ⟨3,5⟩, ⟨4,5⟩⟩,
                       localDirtyFlag := true, dirtyFlag := true }
        else { baseT with localDirtyFlag := true, dirtyFlag := true } }

/-- Scenario for claim C9: a single root entity carrying a Renderable (no
cached AABB yet) whose object-space geometry AABB is [(-1,-1),(1,1)]; the
transform is identity with clean flags and no event has fired. -/
def stateC9 : SGState :=
  { baseState with
      renderable := fun e => if e = 0 then some { aabb := none, dirty := false } else none,
      geometry := fun _ => { aabb := { lo := ⟨-1,-1,0⟩, hi := ⟨1,1,0⟩ } } }

set_option maxRecDepth 40000 in
/-- Claim C2: reparenting is claimed to preserve world pose even under a
non-identity parent world transform. It does not: entity 1 sits at world
position (1,0,0); after `attach(1, 0)` under the parent world scale (2,2,1),
`getPosition` returns (2,0,0) — `matrixTransform` composes
`localTransform * inv(parentWorld)` in the wrong order, so the pose is
rescaled by the parent instead of being preserved. -/
theorem c2_attach_does_not_preserve_world_position :
    vec3Eq (getPosition 3 stateC2 1).2 ⟨1, 0, 0⟩ ∧
    vec3Eq (getPosition 3 (attach 3 3 stateC2 1 0 none) 1).2 ⟨2, 0, 0⟩ ∧
    ¬ vec3Eq (getPosition 3 (attach 3 3 stateC2 1 0 none) 1).2 ⟨1, 0, 0⟩ := by
  decide

set_option maxRecDepth 40000 in
/-- Claim C4: `detachChildren` is claimed to detach every current child via a
snapshot. The code iterates the live array while `detach` splices it, so with
children [1, 2] the `forEach` index skips entity 2: afterwards the parent
still has children [2] and entity 2 is still parented — only entity 1 was
detached. -/
theorem c4_detachChildren_skips_every_other_child :
    ((detachChildren 3 3 stateC4 0).sgn 0).children = [2] ∧
    ((detachChildren 3 3 stateC4 0).sgn 1).parent = none ∧
    ((detachChildren 3 3 stateC4 0).sgn 2).parent = some 0 := by
  decide

set_option maxRecDepth 40000 in
/-- Claim C5 (counterexample): `attach(node, node)` is claimed to be a silent
no-op. On a dirty root entity 0, `attach 0 0` changes the hierarchy: the
parent link becomes `some 0` (was `none`) and the children list becomes [0]
(was []). -/
theorem c5_attach_self_is_not_noop :
    (stateC5.sgn 0).parent = none ∧ (stateC5.sgn 0).children = [] ∧
    ((attach 3 3 stateC5 0 0 none).sgn 0).parent = some 0 ∧
    ((attach 3 3 stateC5 0 0 none).sgn 0).children = [0] := by
  decide

/-- Claim C5 (amended): `attach(node, node)` is not guarded at all — for every
state it links the node as its own parent and inserts it into its own children
list, creating a self-cycle (and when the node's world-dirty flag was clear,
the source's ancestor unfreeze walk would not terminate on that cycle). -/
theorem c5_attach_self_links_self_cycle (wf df : Nat) (s : SGState) (e : Nat)
    (index : Option Nat) :
    ((attach wf df s e e index).sgn e).parent = some e ∧
    e ∈ ((attach wf df s e e index).sgn e).children := by
  have key : ∀ (t : SGState) (m : Mat4),
      hierEq (matrixTransform wf df (dirtifyAABB wf t e) e m) t := fun t m =>
    hierEq_trans (hierEq_matrixTransform wf df _ e m)
      (hierEq_of_sgn_eq (sgn_dirtifyAABB wf t e))
  simp only [attach]
  rw [(key _ _ e).1, (key _ _ e).2]
  simp only [SGState.modSgn, if_pos rfl]
  constructor
  · rfl
  · cases index with
    | none => simp
    | some i => simp

set_option maxRecDepth 40000 in
/-- Claim C6 (counterexample): the rotation-mutating operations are claimed to
always leave a unit `localRotation` by renormalizing. `setEulerAngles` never
calls `normalize`: under a parent whose world matrix carries skew, the
extracted parent rotation is not unit, and the stored local rotation
`fromEuler(0,0,0) * invert(parentRot)` has squared norm 4050/3761 ≠ 1. -/
theorem c6_setEulerAngles_breaks_unit_invariant :
    ¬ qEq (quatDot ((setEulerAngles sinHalfOracle cosHalfOracle 3 3
        stateC6 1 ⟨0, 0, 0⟩).transform 1).localRotation) 1 := by
  decide

set_option maxRecDepth 40000 in
/-- Claim C7: the world-space rotation variants are claimed to compose with
the parent's inverse rotation so the resulting world orientation matches the
request. They do not. With the parent rotated by the 3-4-5 angle about z:
after `rotate(child, d)` the child's world rotation is
(0,0,117/125,−44/125) rather than the requested-times-previous
(0,0,24/25,7/25) (line 199 drops the computed `invert(parentRot)` factor);
and after `setEulerAngles(child, d')` about x the world rotation is
(21/125,72/125,0,4/5) rather than the requested `fromEuler(d')`
(3/5,0,0,4/5) — the stored value is conjugated by the parent rotation. In
both cases the result also differs from the negated quaternion, so this is
not a double-cover artifact. -/
theorem c7_world_rotation_ignores_parent_inverse :
    quatEqv (quatMul (quatFromEuler sinHalfOracle cosHalfOracle ⟨0, 0, 1⟩)
        (getRotation 4 stateC7 1).2) ⟨0, 0, ⟨24,25⟩, ⟨7,25⟩⟩ ∧
    quatEqv (getRotation 4 (rotate sinHalfOracle cosHalfOracle 4 4
        stateC7 1 ⟨0, 0, 1⟩) 1).2 ⟨0, 0, ⟨117,125⟩, ⟨-44,125⟩⟩ ∧
    ¬ quatEqv (getRotation 4 (rotate sinHalfOracle cosHalfOracle 4 4
        stateC7 1 ⟨0, 0, 1⟩) 1).2 ⟨0, 0, ⟨24,25⟩, ⟨7,25⟩⟩ ∧
    ¬ quatEqv (getRotation 4 (rotate sinHalfOracle cosHalfOracle 4 4
        stateC7 1 ⟨0, 0, 1⟩) 1).2 ⟨0, 0, ⟨-24,25⟩, ⟨-7,25⟩⟩ ∧
    quatEqv (quatFromEuler sinHalfOracle cosHalfOracle ⟨1, 0, 0⟩)
        ⟨⟨3,5⟩, 0, 0, ⟨4,5⟩⟩ ∧
    quatEqv (getRotation 4 (setEulerAngles sinHalfOracle cosHalfOracle 4 4
        stateC7 1 ⟨1, 0, 0⟩) 1).2 ⟨⟨21,125⟩, ⟨72,125⟩, 0, ⟨4,5⟩⟩ ∧
    ¬ quatEqv (getRotation 4 (setEulerAngles sinHalfOracle cosHalfOracle 4 4
        stateC7 1 ⟨1, 0, 0⟩) 1).2 ⟨⟨3,5⟩, 0, 0, ⟨4,5⟩⟩ ∧
    ¬ quatEqv (getRotation 4 (setEulerAngles sinHalfOracle cosHalfOracle 4 4
        stateC7 1 ⟨1, 0, 0⟩) 1).2 ⟨⟨-3,5⟩, 0, 0, ⟨-4,5⟩⟩ := by
  decide

set_option maxRecDepth 40000 in
/-- Claim C9: on a root with a Renderable and object-space AABB
[(-1,-1),(1,1)] and clean flags, `setLocalScale(node, (2,2,1))` synchronously
recomputes the world AABB to [(-2,-2),(2,2)], marks the renderable dirty, and
emits exactly one `AABBChanged` event for that node. -/
theorem c9_setLocalScale_updates_aabb_once :
    (setLocalScale 3 3 stateC9 0 ⟨2, 2, 1⟩).renderable 0 =
      some { aabb := some { lo := ⟨-2, -2, 0⟩, hi := ⟨2, 2, 0⟩ }, dirty := true } ∧
    (setLocalScale 3 3 stateC9 0 ⟨2, 2, 1⟩).events = [0] ∧
    stateC9.events = [] := by
  decide

theorem int_gcd_dvd_left (a b : Int) : (Int.ofNat (a.natAbs.gcd b.natAbs)) ∣ a := by
  have h1 : (↑(a.natAbs.gcd b.natAbs) : ℤ) ∣ (↑a.natAbs : ℤ) :=
    Int.natCast_dvd_natCast.mpr (Nat.gcd_dvd_left _ _)
  simpa using Int.dvd_natAbs.mp h1

theorem int_gcd_dvd_right (a b : Int) : (Int.ofNat (a.natAbs.gcd b.natAbs)) ∣ b := by
  have h1 : (↑(a.natAbs.gcd b.natAbs) : ℤ) ∣ (↑b.natAbs : ℤ) :=
    Int.natCast_dvd_natCast.mpr (Nat.gcd_dvd_right _ _)
  simpa using Int.dvd_natAbs.mp h1

theorem qReduce_toRat (x : Q) : (qReduce x).toRat = x.toRat := by
  rw [qReduce]
  set g0 := x.num.natAbs.gcd x.den.natAbs with hg0
  by_cases h0 : g0 = 0
  · simp [h0]
  · have hIg : (Int.ofNat g0) ≠ 0 := by simpa using h0
    have hgQ : ((Int.ofNat g0 : ℤ) : ℚ) ≠ 0 := by exact_mod_cast hIg
    have hdn : (Int.ofNat g0) ∣ x.num := by rw [hg0]; exact int_gcd_dvd_left x.num x.den
    have hdd : (Int.ofNat g0) ∣ x.den := by rw [hg0]; exact int_gcd_dvd_right x.num x.den
    obtain ⟨n1, hn⟩ := hdn
    obtain ⟨d1, hd⟩ := hdd
    have htn : x.num.tdiv (Int.ofNat g0) = n1 := by
      rw [hn, Int.mul_tdiv_cancel_left _ hIg]
    have htd : x.den.tdiv (Int.ofNat g0) = d1 := by
      rw [hd, Int.mul_tdiv_cancel_left _ hIg]
    simp only [h0, if_false, htn, htd]
    by_cases hneg : d1 < 0
    · simp only [hneg, if_true]
      show ((-n1 : ℤ) : ℚ) / ((-d1 : ℤ) : ℚ) = x.toRat
      rw [Q.toRat, hn, hd]
      push_cast
      rw [neg_div_neg_eq, mul_div_mul_left _ _ hgQ]
    · simp only [hneg, if_false]
      show ((n1 : ℤ) : ℚ) / ((d1 : ℤ) : ℚ) = x.toRat
      rw [Q.toRat, hn, hd]
      push_cast
      rw [mul_div_mul_left _ _ hgQ]

theorem qReduce_den_ne {x : Q} (h : x.den ≠ 0) : (qReduce x).den ≠ 0 := by
  rw [qReduce]
  set g0 := x.num.natAbs.gcd x.den.natAbs with hg0
  by_cases h0 : g0 = 0
  · simpa [h0] using h
  · have hIg : (Int.ofNat g0) ≠ 0 := by simpa using h0
    have hdd : (Int.ofNat g0) ∣ x.den := by rw [hg0]; exact int_gcd_dvd_right x.num x.den
    obtain ⟨d1, hd⟩ := hdd
    have htd : x.den.tdiv (Int.ofNat g0) = d1 := by
      rw [hd, Int.mul_tdiv_cancel_left _ hIg]
    have hd1 : d1 ≠ 0 := fun h1 => h (by rw [hd, h1, mul_zero])
    simp only [h0, if_false, htd]
    by_cases hneg : d1 < 0
    · simp only [hneg, if_true]
      exact neg_ne_zero.mpr hd1
    · simpa [hneg] using hd1

theorem qAdd_toRat {a b : Q} (ha : a.den ≠ 0) (hb : b.den ≠ 0) :
    (qAdd a b).toRat = a.toRat + b.toRat := by
  show (qReduce _).toRat = _
  rw [qReduce_toRat]
  show ((_ : ℤ) : ℚ) / _ = _
  rw [Q.toRat, Q.toRat]
  have ha' : ((a.den : ℤ) : ℚ) ≠ 0 := by exact_mod_cast ha
  have hb' : ((b.den : ℤ) : ℚ) ≠ 0 := by exact_mod_cast hb
  push_cast
  field_simp

theorem qSub_toRat {a b : Q} (ha : a.den ≠ 0) (hb : b.den ≠ 0) :
    (qSub a b).toRat = a.toRat - b.toRat := by
  show (qReduce _).toRat = _
  rw [qReduce_toRat]
  rw [Q.toRat, Q.toRat, Q.toRat]
  have ha' : ((a.den : ℤ) : ℚ) ≠ 0 := by exact_mod_cast ha
  have hb' : ((b.den : ℤ) : ℚ) ≠ 0 := by exact_mod_cast hb
  push_cast
  field_simp
  ring

theorem qMul_toRat (a b : Q) : (qMul a b).toRat = a.toRat * b.toRat := by
  show (qReduce _).toRat = _
  rw [qReduce_toRat]
  rw [Q.toRat, Q.toRat, Q.toRat]
  push_cast
  rw [div_mul_div_comm]

theorem qDiv_toRat (a b : Q) : (qDiv a b).toRat = a.toRat / b.toRat := by
  show (qReduce _).toRat = _
  rw [qReduce_toRat]
  rw [Q.toRat, Q.toRat, Q.toRat]
  push_cast
  simp only [div_eq_mul_inv, mul_inv, inv_inv]
  ring

theorem qNeg_toRat (a : Q) : (qNeg a).toRat = -a.toRat := by
  rw [qNeg, Q.toRat, Q.toRat]
  push_cast
  rw [neg_div]

theorem qNonneg_iff_toRat (y : Q) : 0 ≤ y.num * y.den ↔ 0 ≤ y.toRat := by
  rw [Q.toRat, div_nonneg_iff, mul_nonneg_iff]
  constructor
  · rintro (⟨h1, h2⟩ | ⟨h1, h2⟩)
    · exact Or.inl ⟨by exact_mod_cast h1, by exact_mod_cast h2⟩
    · exact Or.inr ⟨by exact_mod_cast h1, by exact_mod_cast h2⟩
  · rintro (⟨h1, h2⟩ | ⟨h1, h2⟩)
    · exact Or.inl ⟨by exact_mod_cast h1, by exact_mod_cast h2⟩
    · exact Or.inr ⟨by exact_mod_cast h1, by exact_mod_cast h2⟩

theorem qLe_iff_toRat {a b : Q} (ha : a.den ≠ 0) (hb : b.den ≠ 0) :
    qLe a b ↔ a.toRat ≤ b.toRat := by
  rw [qLe, qNonneg_iff_toRat, qSub_toRat hb ha, sub_nonneg]

theorem qEq_iff_toRat {a b : Q} (ha : a.den ≠ 0) (hb : b.den ≠ 0) :
    qEq a b ↔ a.toRat = b.toRat := by
  rw [qEq, Q.toRat, Q.toRat, div_eq_div_iff (by exact_mod_cast ha) (by exact_mod_cast hb)]
  constructor <;> intro h <;> exact_mod_cast h

/-- Scope predicate for z-index comparisons: the entity's z-index is a
well-formed fraction. -/
def zOk (s : SGState) (c : Nat) : Prop := (s.sortable c).zIndex.den ≠ 0

theorem zLe_total_of {s : SGState} {a b : Nat} (ha : zOk s a) (hb : zOk s b) :
    zLe s a b ∨ zLe s b a := by
  unfold zLe
  rw [qLe_iff_toRat ha hb, qLe_iff_toRat hb ha]
  exact le_total _ _

theorem zLe_trans_of {s : SGState} {a b c : Nat} (ha : zOk s a) (hb : zOk s b)
    (hc : zOk s c) (h1 : zLe s a b) (h2 : zLe s b c) : zLe s a c := by
  unfold zLe at h1 h2 ⊢
  rw [qLe_iff_toRat ha hb] at h1
  rw [qLe_iff_toRat hb hc] at h2
  rw [qLe_iff_toRat ha hc]
  exact le_trans h1 h2

theorem orderedInsert_pairwise {s : SGState} :
    ∀ (l : List Nat) (a : Nat), (∀ x ∈ l, zOk s x) → zOk s a →
      l.Pairwise (zLe s) → (l.orderedInsert (zLe s) a).Pairwise (zLe s)
  | [], a, _, _, _ => by simp [List.orderedInsert]
  | b :: l, a, hl, ha, hp => by
    rw [List.orderedInsert]
    by_cases hab : zLe s a b
    · simp only [hab, if_true]
      refine List.Pairwise.cons ?_ hp
      intro x hx
      rcases List.mem_cons.mp hx with h | h
      · exact h ▸ hab
      · exact zLe_trans_of ha (hl b (by simp)) (hl x (List.mem_cons_of_mem _ h)) hab
          ((List.pairwise_cons.mp hp).1 x h)
    · simp only [hab, if_false]
      have hba : zLe s b a := (zLe_total_of ha (hl b (by simp))).resolve_left hab
      refine List.Pairwise.cons ?_ (orderedInsert_pairwise l a
        (fun x hx => hl x (List.mem_cons_of_mem _ hx)) ha (List.pairwise_cons.mp hp).2)
      intro x hx
      rw [List.mem_orderedInsert] at hx
      rcases hx with h | h
      · exact h ▸ hba
      · exact (List.pairwise_cons.mp hp).1 x h

theorem insertionSort_pairwise {s : SGState} :
    ∀ (l : List Nat), (∀ x ∈ l, zOk s x) → (l.insertionSort (zLe s)).Pairwise (zLe s)
  | [], _ => by simp
  | a :: l, hl => by
    rw [List.insertionSort]
    refine orderedInsert_pairwise _ a ?_ (hl a (by simp)) ?_
    · intro x hx
      exact hl x (List.mem_cons_of_mem _ ((List.perm_insertionSort (zLe s) l).mem_iff.mp hx))
    · exact insertionSort_pairwise l (fun x hx => hl x (List.mem_cons_of_mem _ hx))

theorem orderedInsert_filter_pos {s : SGState} (p : Nat → Bool) (a : Nat)
    (hpa : p a = true) :
    ∀ (l : List Nat), (∀ b ∈ l, ¬ zLe s a b → p b = false) →
      (l.orderedInsert (zLe s) a).filter p = a :: l.filter p
  | [], _ => by simp [List.orderedInsert, hpa]
  | b :: l, hskip => by
    rw [List.orderedInsert]
    by_cases hab : zLe s a b
    · simp [hab, List.filter_cons, hpa]
    · have hpb : p b = false := hskip b (by simp) hab
      simp only [hab, if_false, List.filter_cons, hpb, Bool.false_eq_true, if_false]
      rw [orderedInsert_filter_pos p a hpa l (fun c hc => hskip c (List.mem_cons_of_mem _ hc))]

theorem orderedInsert_filter_neg {s : SGState} (p : Nat → Bool) (a : Nat)
    (hpa : p a = false) :
    ∀ (l : List Nat), (l.orderedInsert (zLe s) a).filter p = l.filter p
  | [] => by simp [List.orderedInsert, hpa]
  | b :: l => by
    rw [List.orderedInsert]
    by_cases hab : zLe s a b
    · simp [hab, List.filter_cons, hpa]
    · simp only [hab, if_false, List.filter_cons]
      rw [orderedInsert_filter_neg p a hpa l]

theorem insertionSort_filter {s : SGState} (p : Nat → Bool)
    (hcompat : ∀ a b, p a = true → p b = true → zLe s a b) :
    ∀ (l : List Nat), (l.insertionSort (zLe s)).filter p = l.filter p
  | [] => by simp
  | a :: l => by
    rw [List.insertionSort]
    by_cases hpa : p a = true
    · rw [orderedInsert_filter_pos p a hpa _ ?_]
      · rw [insertionSort_filter p hcompat l, List.filter_cons, hpa]
        simp
      · intro b _ hnab
        cases hpb : p b
        · rfl
        · exact absurd (hcompat a b hpa hpb) hnab
    · have hpa' : p a = false := by revert hpa; cases p a <;> simp
      rw [orderedInsert_filter_neg p a hpa', insertionSort_filter p hcompat l,
        List.filter_cons, hpa']
      simp

/-- The subtree below `e` unfolds within `f` levels (bounded height, which is
what the source's acyclicity precondition guarantees for finite scenes). -/
def htLe : Nat → SGState → Nat → Prop
  | 0, s, e => (s.sgn e).children = []
  | f + 1, s, e => ∀ c ∈ (s.sgn e).children, htLe f s c

def htLeDec : ∀ (f : Nat) (s : SGState) (e : Nat), Decidable (htLe f s e)
  | 0, _, _ => by unfold htLe; infer_instance
  | f + 1, s, e => by
    unfold htLe
    haveI : ∀ c, Decidable (htLe f s c) := fun c => htLeDec f s c
    exact List.decidableBAll _ _

instance (f : Nat) (s : SGState) (e : Nat) : Decidable (htLe f s e) := htLeDec f s e

theorem htLe_mono : ∀ {f g : Nat} {s : SGState} {e : Nat}, f ≤ g → htLe f s e → htLe g s e := by
  intro f
  induction f with
  | zero =>
    intro g s e _ h
    cases g with
    | zero => exact h
    | succ g =>
      intro c hc
      rw [htLe] at h
      simp [h] at hc
  | succ f ih =>
    intro g s e hfg h
    cases g with
    | zero => omega
    | succ g =>
      intro c hc
      exact ih (by omega) (h c hc)

/-- The list `sort` is specified to produce for the array `arr`: the stable
z-index sort of each level, flattened pre-order, within `f` levels of fuel. -/
def sortPreList : Nat → SGState → List Nat → List Nat
  | 0, _, _ => []
  | f + 1, s, arr =>
    if arr.length ≠ 0 then
      (sortChildren s arr).flatMap (fun c => c :: sortPreList f s ((s.sgn c).children))
    else []

theorem sortChildren_congr {s0 t : SGState} (h : t.sortable = s0.sortable) (arr : List Nat) :
    sortChildren t arr = sortChildren s0 arr := by
  unfold sortChildren zLe
  simp only [h]

theorem sortChildren_perm (s : SGState) (l : List Nat) : (sortChildren s l).Perm l :=
  List.perm_insertionSort _ l

theorem mem_sortChildren {s : SGState} {l : List Nat} {x : Nat} :
    x ∈ sortChildren s l ↔ x ∈ l :=
  (sortChildren_perm s l).mem_iff

/-- What one `flatten` call does: appends the stable-sorted pre-order listing
to the accumulator, replaces the children lists of the listed nodes (and of
the owner of the array) by their sorted versions, and touches nothing else. -/
def FlattenPost (s0 : SGState) (f : Nat) (s : SGState) (arr : List Nat)
    (owner : Option Nat) (acc : List Nat) : Prop :=
  (flatten f s arr owner acc).2 = acc ++ sortPreList f s0 arr ∧
  (∀ x, x ∉ sortPreList f s0 arr → (∀ o, owner = some o → x ≠ o) →
    (flatten f s arr owner acc).1.sgn x = s.sgn x) ∧
  (∀ x ∈ sortPreList f s0 arr,
    ((flatten f s arr owner acc).1.sgn x).children = sortChildren s0 ((s0.sgn x).children) ∧
    ((flatten f s arr owner acc).1.sgn x).parent = (s.sgn x).parent ∧
    ((flatten f s arr owner acc).1.sgn x).frozen = (s.sgn x).frozen) ∧
  (∀ o, owner = some o →
    ((flatten f s arr owner acc).1.sgn o).children = sortChildren s0 arr ∧
    ((flatten f s arr owner acc).1.sgn o).parent = (s.sgn o).parent ∧
    ((flatten f s arr owner acc).1.sgn o).frozen = (s.sgn o).frozen) ∧
  ((flatten f s arr owner acc).1.transform = s.transform ∧
   (flatten f s arr owner acc).1.sortable = s.sortable ∧
   (flatten f s arr owner acc).1.renderable = s.renderable ∧
   (flatten f s arr owner acc).1.geometry = s.geometry ∧
   (flatten f s arr owner acc).1.events = s.events)

/-- One step of the `forEach` in `flatten`. -/
def foldStep (f : Nat) (p : SGState × List Nat) (c : Nat) : SGState × List Nat :=
  flatten f p.1 ((p.1.sgn c).children) (some c) (p.2 ++ [c])

/-- The spec listing contributed by one sorted entry. -/
def specOf (s0 : SGState) (f : Nat) (c : Nat) : List Nat :=
  c :: sortPreList f s0 ((s0.sgn c).children)

/-- The spec listing contributed by a sorted level. -/
def SRem (s0 : SGState) (f : Nat) (cs : List Nat) : List Nat := cs.flatMap (specOf s0 f)

theorem flatten_zero (s : SGState) (arr : List Nat) (owner : Option Nat) (acc : List Nat) :
    flatten 0 s arr owner acc = (s, acc) := rfl

theorem flatten_succ_nil (f : Nat) (s : SGState) (owner : Option Nat) (acc : List Nat) :
    flatten (f + 1) s [] owner acc = (s, acc) := by
  rw [flatten]
  simp

theorem flatten_succ (f : Nat) (s : SGState) (arr : List Nat) (owner : Option Nat)
    (acc : List Nat) (h : arr.length ≠ 0) :
    flatten (f + 1) s arr owner acc =
      (sortChildren s arr).foldl (foldStep f)
        ((match owner with
          | some o => s.modSgn o fun n => { n with children := sortChildren s arr }
          | none => s), acc) := by
  rw [flatten]
  simp only [h, if_true, ne_eq, not_false_iff]
  rfl

theorem sortPreList_succ (s0 : SGState) (f : Nat) (arr : List Nat) (h : arr.length ≠ 0) :
    sortPreList (f + 1) s0 arr = SRem s0 f (sortChildren s0 arr) := by
  rw [sortPreList]
  simp only [h, if_true, ne_eq, not_false_iff]
  rfl

theorem sortPreList_nil (s0 : SGState) (f : Nat) : sortPreList f s0 [] = [] := by
  cases f <;> simp [sortPreList]

theorem SRem_cons (s0 : SGState) (f : Nat) (c : Nat) (cs : List Nat) :
    SRem s0 f (c :: cs) = specOf s0 f c ++ SRem s0 f cs := by
  simp [SRem]

/-- What the `forEach` loop over one sorted level does. -/
def FoldPost (s0 : SGState) (f : Nat) (cs : List Nat) (t : SGState) (acc1 : List Nat) : Prop :=
  (cs.foldl (foldStep f) (t, acc1)).2 = acc1 ++ SRem s0 f cs ∧
  (∀ x, x ∉ SRem s0 f cs → (cs.foldl (foldStep f) (t, acc1)).1.sgn x = t.sgn x) ∧
  (∀ x ∈ SRem s0 f cs,
    ((cs.foldl (foldStep f) (t, acc1)).1.sgn x).children = sortChildren s0 ((s0.sgn x).children) ∧
    ((cs.foldl (foldStep f) (t, acc1)).1.sgn x).parent = (t.sgn x).parent ∧
    ((cs.foldl (foldStep f) (t, acc1)).1.sgn x).frozen = (t.sgn x).frozen) ∧
  ((cs.foldl (foldStep f) (t, acc1)).1.transform = t.transform ∧
   (cs.foldl (foldStep f) (t, acc1)).1.sortable = t.sortable ∧
   (cs.foldl (foldStep f) (t, acc1)).1.renderable = t.renderable ∧
   (cs.foldl (foldStep f) (t, acc1)).1.geometry = t.geometry ∧
   (cs.foldl (foldStep f) (t, acc1)).1.events = t.events)

theorem flatten_fold (s0 : SGState) (f : Nat)
    (ihf : ∀ (s : SGState) (arr : List Nat) (owner : Option Nat) (acc : List Nat),
      s.sortable = s0.sortable →
      (∀ o, owner = some o → arr = (s.sgn o).children) →
      (∀ o, owner = some o → o ∉ sortPreList f s0 arr) →
      (∀ c ∈ sortPreList f s0 arr, (s.sgn c).children = (s0.sgn c).children) →
      (sortPreList f s0 arr).Nodup →
      (∀ c ∈ arr, ∃ k, k < f ∧ htLe k s0 c) →
      FlattenPost s0 f s arr owner acc) :
    ∀ (cs : List Nat) (t : SGState) (acc1 : List Nat),
      t.sortable = s0.sortable →
      (∀ c ∈ SRem s0 f cs, (t.sgn c).children = (s0.sgn c).children) →
      (SRem s0 f cs).Nodup →
      (∀ c ∈ cs, ∃ k, k < f + 1 ∧ htLe k s0 c) →
      FoldPost s0 f cs t acc1 := by
  intro cs
  induction cs with
  | nil =>
    intro t acc1 _ _ _ _
    refine ⟨by simp [SRem], fun x _ => rfl, by simp [SRem], rfl, rfl, rfl, rfl, rfl⟩
  | cons c cs ih =>
    intro t acc1 hsort hprist hnodup hht
    have hSRemc : SRem s0 f (c :: cs) = specOf s0 f c ++ SRem s0 f cs := SRem_cons ..
    have hmemc : c ∈ SRem s0 f (c :: cs) := by
      rw [hSRemc]
      exact List.mem_append_left _ (by simp [specOf])
    have hpc : (t.sgn c).children = (s0.sgn c).children := hprist c hmemc
    have hnods : (specOf s0 f c).Nodup ∧ (SRem s0 f cs).Nodup ∧
        (specOf s0 f c).Disjoint (SRem s0 f cs) := by
      rw [hSRemc] at hnodup
      exact List.nodup_append.mp hnodup
    have hcns : c ∉ sortPreList f s0 ((s0.sgn c).children) := by
      have h1 := hnods.1
      rw [specOf] at h1
      exact (List.nodup_cons.mp h1).1
    have hhtc : ∀ d ∈ (s0.sgn c).children, ∃ k, k < f ∧ htLe k s0 d := by
      intro d hd
      obtain ⟨k, hk, hht0⟩ := hht c (by simp)
      cases k with
      | zero =>
        rw [htLe] at hht0
        rw [hht0] at hd
        simp at hd
      | succ k => exact ⟨k, by omega, hht0 d hd⟩
    have hpost := ihf t ((t.sgn c).children) (some c) (acc1 ++ [c])
      hsort (fun o ho => by cases ho; rfl)
      (fun o ho => by cases ho; rw [hpc]; exact hcns)
      (fun x hx => hprist x (by
        rw [hSRemc]
        refine List.mem_append_left _ ?_
        rw [specOf]
        rw [hpc] at hx
        exact List.mem_cons_of_mem _ hx))
      (by
        rw [hpc]
        have h1 := hnods.1
        rw [specOf] at h1
        exact (List.nodup_cons.mp h1).2)
      (by rw [hpc]; exact hhtc)
    rw [hpc] at hpost
    set t1 := (flatten f t ((s0.sgn c).children) (some c) (acc1 ++ [c])).1 with ht1
    obtain ⟨hp1, hp2, hp3, hp4, hp5⟩ := hpost
    have hfold1 : (c :: cs).foldl (foldStep f) (t, acc1) =
        cs.foldl (foldStep f) (t1, acc1 ++ [c] ++ sortPreList f s0 ((s0.sgn c).children)) := by
      rw [List.foldl_cons]
      have hstep : foldStep f (t, acc1) c =
          (t1, acc1 ++ [c] ++ sortPreList f s0 ((s0.sgn c).children)) := by
        rw [foldStep]
        show (flatten f t ((t.sgn c).children) (some c) (acc1 ++ [c])) = _
        rw [hpc]
        refine Prod.ext ht1.symm ?_
        show (flatten f t ((s0.sgn c).children) (some c) (acc1 ++ [c])).2 = _
        rw [hp1, List.append_assoc]
      rw [hstep]
    have hdisj : ∀ x ∈ SRem s0 f cs, x ∉ specOf s0 f c := by
      intro x hx hx2
      exact hnods.2.2 hx2 hx
    have hrest := ih t1 (acc1 ++ [c] ++ sortPreList f s0 ((s0.sgn c).children))
      (hp5.2.1.trans hsort)
      (fun x hx => by
        have hne : ∀ o, (some c : Option Nat) = some o → x ≠ o := by
          intro o ho
          cases ho
          intro hxc
          exact hdisj x hx (hxc ▸ by simp [specOf])
        have hnotin : x ∉ sortPreList f s0 ((s0.sgn c).children) := by
          intro hmem
          exact hdisj x hx (by rw [specOf]; exact List.mem_cons_of_mem _ hmem)
        rw [hp2 x hnotin hne]
        exact hprist x (by rw [hSRemc]; exact List.mem_append_right _ hx))
      hnods.2.1
      (fun d hd => hht d (List.mem_cons_of_mem _ hd))
    obtain ⟨hr1, hr2, hr3, hr4⟩ := hrest
    refine ⟨?_, ?_, ?_, ?_⟩
    · rw [hfold1, hr1, hSRemc, specOf]
      simp
    · intro x hx
      rw [hSRemc] at hx
      have hx1 : x ∉ specOf s0 f c := fun h => hx (List.mem_append_left _ h)
      have hx2 : x ∉ SRem s0 f cs := fun h => hx (List.mem_append_right _ h)
      rw [hfold1, hr2 x hx2]
      have hne : ∀ o, (some c : Option Nat) = some o → x ≠ o := by
        intro o ho
        cases ho
        intro hxc
        exact hx1 (hxc ▸ by simp [specOf])
      exact hp2 x (fun h => hx1 (by rw [specOf]; exact List.mem_cons_of_mem _ h)) hne
    · intro x hx
      rw [hSRemc] at hx
      rcases List.mem_append.mp hx with hx1 | hx1
      · have hx2 : x ∉ SRem s0 f cs := fun h => hdisj x h hx1
        rw [specOf] at hx1
        rcases List.mem_cons.mp hx1 with hxc | hxs
        · subst hxc
          exact ⟨by rw [hfold1, hr2 x hx2, (hp4 x rfl).1],
            by rw [hfold1, hr2 x hx2, (hp4 x rfl).2.1],
            by rw [hfold1, hr2 x hx2, (hp4 x rfl).2.2]⟩
        · exact ⟨by rw [hfold1, hr2 x hx2, (hp3 x hxs).1],
            by rw [hfold1, hr2 x hx2, (hp3 x hxs).2.1],
            by rw [hfold1, hr2 x hx2, (hp3 x hxs).2.2]⟩
      · have hxnc : x ∉ specOf s0 f c := fun h => hdisj x hx1 h
        have hne : ∀ o, (some c : Option Nat) = some o → x ≠ o := by
          intro o ho
          cases ho
          intro hxc
          exact hxnc (hxc ▸ by simp [specOf])
        have ht1x : t1.sgn x = t.sgn x :=
          hp2 x (fun h => hxnc (by rw [specOf]; exact List.mem_cons_of_mem _ h)) hne
        exact ⟨by rw [hfold1, (hr3 x hx1).1],
          by rw [hfold1, (hr3 x hx1).2.1, ht1x],
          by rw [hfold1, (hr3 x hx1).2.2, ht1x]⟩
    · rw [hfold1]
      exact ⟨hr4.1.trans hp5.1, hr4.2.1.trans hp5.2.1, hr4.2.2.1.trans hp5.2.2.1,
        hr4.2.2.2.1.trans hp5.2.2.2.1, hr4.2.2.2.2.trans hp5.2.2.2.2⟩

theorem flatten_assemble (s0 : SGState) (f : Nat)
    (ihf : ∀ (s : SGState) (arr : List Nat) (owner : Option Nat) (acc : List Nat),
      s.sortable = s0.sortable →
      (∀ o, owner = some o → arr = (s.sgn o).children) →
      (∀ o, owner = some o → o ∉ sortPreList f s0 arr) →
      (∀ c ∈ sortPreList f s0 arr, (s.sgn c).children = (s0.sgn c).children) →
      (sortPreList f s0 arr).Nodup →
      (∀ c ∈ arr, ∃ k, k < f ∧ htLe k s0 c) →
      FlattenPost s0 f s arr owner acc)
    (s s1 : SGState) (arr : List Nat) (owner : Option Nat) (acc : List Nat)
    (hflat : flatten (f + 1) s arr owner acc =
      (sortChildren s0 arr).foldl (foldStep f) (s1, acc))
    (hSL : sortPreList (f + 1) s0 arr = SRem s0 f (sortChildren s0 arr))
    (hsort : s.sortable = s0.sortable)
    (hfresh : ∀ o, owner = some o → o ∉ sortPreList (f + 1) s0 arr)
    (hprist : ∀ c ∈ sortPreList (f + 1) s0 arr, (s.sgn c).children = (s0.sgn c).children)
    (hnodup : (sortPreList (f + 1) s0 arr).Nodup)
    (hht : ∀ c ∈ arr, ∃ k, k < f + 1 ∧ htLe k s0 c)
    (hs1sgn : ∀ x, (∀ o, owner = some o → x ≠ o) → s1.sgn x = s.sgn x)
    (hs1pf : ∀ x, (s1.sgn x).parent = (s.sgn x).parent ∧ (s1.sgn x).frozen = (s.sgn x).frozen)
    (hs1sortable : s1.sortable = s.sortable)
    (hs1frame : s1.transform = s.transform ∧ s1.renderable = s.renderable ∧
      s1.geometry = s.geometry ∧ s1.events = s.events)
    (hs1owner : ∀ o, owner = some o → (s1.sgn o).children = sortChildren s0 arr) :
    FlattenPost s0 (f + 1) s arr owner acc := by
  have hfold := flatten_fold s0 f ihf (sortChildren s0 arr) s1 acc
    (hs1sortable.trans hsort)
    (fun c hc => by
      rw [hs1sgn c (fun o ho hco => hfresh o ho (hco ▸ (hSL ▸ hc)))]
      exact hprist c (hSL ▸ hc))
    (hSL ▸ hnodup)
    (fun c hc => hht c (mem_sortChildren.mp hc))
  obtain ⟨hf1, hf2, hf3, hf4⟩ := hfold
  refine ⟨?_, ?_, ?_, ?_, ?_⟩
  · rw [hflat, hf1, hSL]
  · intro x hx hne
    rw [hflat, hf2 x (by rw [← hSL]; exact hx), hs1sgn x hne]
  · intro x hx
    rw [hSL] at hx
    refine ⟨by rw [hflat]; exact (hf3 x hx).1, ?_, ?_⟩
    · rw [hflat, (hf3 x hx).2.1, (hs1pf x).1]
    · rw [hflat, (hf3 x hx).2.2, (hs1pf x).2]
  · intro o ho
    have hons : o ∉ SRem s0 f (sortChildren s0 arr) := by rw [← hSL]; exact hfresh o ho
    refine ⟨?_, ?_, ?_⟩
    · rw [hflat, hf2 o hons, hs1owner o ho]
    · rw [hflat, hf2 o hons, (hs1pf o).1]
    · rw [hflat, hf2 o hons, (hs1pf o).2]
  · refine ⟨?_, ?_, ?_, ?_, ?_⟩
    · rw [hflat, hf4.1, hs1frame.1]
    · rw [hflat, hf4.2.1, hs1sortable]
    · rw [hflat, hf4.2.2.1, hs1frame.2.1]
    · rw [hflat, hf4.2.2.2.1, hs1frame.2.2.1]
    · rw [hflat, hf4.2.2.2.2, hs1frame.2.2.2]

theorem flatten_run (s0 : SGState) : ∀ (f : Nat) (s : SGState) (arr : List Nat)
    (owner : Option Nat) (acc : List Nat),
    s.sortable = s0.sortable →
    (∀ o, owner = some o → arr = (s.sgn o).children) →
    (∀ o, owner = some o → o ∉ sortPreList f s0 arr) →
    (∀ c ∈ sortPreList f s0 arr, (s.sgn c).children = (s0.sgn c).children) →
    (sortPreList f s0 arr).Nodup →
    (∀ c ∈ arr, ∃ k, k < f ∧ htLe k s0 c) →
    FlattenPost s0 f s arr owner acc := by
  intro f
  induction f with
  | zero =>
    intro s arr owner acc _ howner _ _ _ hht
    have harr : arr = [] := by
      cases arr with
      | nil => rfl
      | cons a arr =>
        obtain ⟨k, hk, _⟩ := hht a (by simp)
        omega
    subst harr
    refine ⟨by simp [flatten_zero, sortPreList_nil], fun x _ _ => rfl, ?_, ?_,
      rfl, rfl, rfl, rfl, rfl⟩
    · intro x hx
      rw [sortPreList_nil] at hx
      simp at hx
    · intro o ho
      refine ⟨?_, rfl, rfl⟩
      show (s.sgn o).children = sortChildren s0 []
      rw [← howner o ho]
      rfl
  | succ f ihf =>
    intro s arr owner acc hsort howner hfresh hprist hnodup hht
    by_cases harr : arr.length ≠ 0
    · have hcs : sortChildren s arr = sortChildren s0 arr := sortChildren_congr hsort arr
      cases owner with
      | none =>
        refine flatten_assemble s0 f ihf s s arr none acc ?_
          (sortPreList_succ s0 f arr harr) hsort hfresh hprist hnodup hht
          (fun x _ => rfl) (fun x => ⟨rfl, rfl⟩) rfl ⟨rfl, rfl, rfl, rfl⟩
          (fun o ho => by cases ho)
        rw [flatten_succ f s arr none acc harr, hcs]
      | some o =>
        refine flatten_assemble s0 f ihf s
          (s.modSgn o fun n => { n with children := sortChildren s0 arr })
          arr (some o) acc ?_
          (sortPreList_succ s0 f arr harr) hsort hfresh hprist hnodup hht
          ?_ ?_ rfl ⟨rfl, rfl, rfl, rfl⟩ ?_
        · rw [flatten_succ f s arr (some o) acc harr, hcs]
        · intro x hne
          rw [modSgn_sgn]
          simp [hne o rfl]
        · intro x
          rw [modSgn_sgn]
          by_cases hxo : x = o <;> simp [hxo]
        · intro o2 ho2
          cases ho2
          rw [modSgn_sgn]
          simp
    · have harr0 : arr = [] := by
        cases arr with
        | nil => rfl
        | cons a l => simp at harr
      subst harr0
      have hflat : flatten (f + 1) s [] owner acc = (s, acc) := flatten_succ_nil ..
      refine ⟨by rw [hflat, sortPreList_nil]; simp, fun x _ _ => by rw [hflat], ?_, ?_, ?_⟩
      · intro x hx
        rw [sortPreList_nil] at hx
        simp at hx
      · intro o ho
        refine ⟨?_, by rw [hflat], by rw [hflat]⟩
        rw [hflat]
        show (s.sgn o).children = sortChildren s0 []
        rw [← howner o ho]
        rfl
      · rw [hflat]
        exact ⟨rfl, rfl, rfl, rfl, rfl⟩

theorem modSortable_sortable (s : SGState) (e x : Nat) (f : Sortable → Sortable) :
    (s.modSortable e f).sortable x = if x = e then f (s.sortable x) else s.sortable x := rfl

theorem modSortable_renderable (s : SGState) (e : Nat) (f : Sortable → Sortable) :
    (s.modSortable e f).renderable = s.renderable := rfl

theorem modSortable_geometry (s : SGState) (e : Nat) (f : Sortable → Sortable) :
    (s.modSortable e f).geometry = s.geometry := rfl

theorem modSortable_events (s : SGState) (e : Nat) (f : Sortable → Sortable) :
    (s.modSortable e f).events = s.events := rfl

theorem zLe_of_qEq {s : SGState} {a b : Nat} (ha : zOk s a) (hb : zOk s b)
    (h : qEq (s.sortable a).zIndex (s.sortable b).zIndex) : zLe s a b := by
  unfold zLe
  rw [qLe_iff_toRat ha hb]
  exact le_of_eq ((qEq_iff_toRat ha hb).mp h)

/-- A sorted level is ascending by z-index, a permutation of the input, and
stable: every class of equal z-indices keeps its relative order. -/
theorem sortChildren_level (s : SGState) (l : List Nat) (hz : ∀ x ∈ l, zOk s x) :
    (sortChildren s l).Pairwise (zLe s) ∧ (sortChildren s l).Perm l ∧
    (∀ p : Nat → Bool, (∀ a b, a ∈ l → b ∈ l → p a = true → p b = true →
      qEq (s.sortable a).zIndex (s.sortable b).zIndex) →
      (sortChildren s l).filter p = l.filter p) := by
  refine ⟨insertionSort_pairwise l hz, sortChildren_perm s l, ?_⟩
  intro p hp
  have hmem : ∀ x ∈ sortChildren s l, x ∈ l := fun x hx => mem_sortChildren.mp hx
  have hq : (sortChildren s l).filter p =
      (sortChildren s l).filter (fun x => p x && decide (x ∈ l)) := by
    refine (List.filter_congr ?_).symm
    intro x hx
    simp [hmem x hx]
  have hq2 : l.filter (fun x => p x && decide (x ∈ l)) = l.filter p := by
    refine List.filter_congr ?_
    intro x hx
    simp [hx]
  rw [hq]
  unfold sortChildren
  rw [insertionSort_filter (fun x => p x && decide (x ∈ l)) ?_ l, hq2]
  intro a b hpa hpb
  simp only [Bool.and_eq_true, decide_eq_true_eq] at hpa hpb
  exact zLe_of_qEq (hz a hpa.2) (hz b hpb.2) (hp a b hpa.2 hpb.2 hpa.1 hpb.1)

/-- When the `Sortable` is dirty or `force` is set, `sort` recomputes: the
returned list is the stable-sorted pre-order listing, the listed children
arrays are replaced by their sorted versions, the listing is cached on the
`Sortable` with the dirty flag cleared, and nothing else changes. -/
theorem sort_recompute (F : Nat) (s : SGState) (e : Nat) (force : Bool)
    (hnodup : (sortPreList (F + 1) s [e]).Nodup)
    (hht : htLe F s e)
    (hrun : ((s.sortable e).dirty || force) = true) :
    (sort (F + 1) s e force).2 = sortPreList (F + 1) s [e] ∧
    (∀ x ∈ sortPreList (F + 1) s [e],
      ((sort (F + 1) s e force).1.sgn x).children = sortChildren s ((s.sgn x).children) ∧
      ((sort (F + 1) s e force).1.sgn x).parent = (s.sgn x).parent ∧
      ((sort (F + 1) s e force).1.sgn x).frozen = (s.sgn x).frozen) ∧
    (∀ x, x ∉ sortPreList (F + 1) s [e] → (sort (F + 1) s e force).1.sgn x = s.sgn x) ∧
    (sort (F + 1) s e force).1.sortable e =
      { s.sortable e with sorted := sortPreList (F + 1) s [e], dirty := false } ∧
    (∀ x, x ≠ e → (sort (F + 1) s e force).1.sortable x = s.sortable x) ∧
    (sort (F + 1) s e force).1.transform = s.transform ∧
    (sort (F + 1) s e force).1.renderable = s.renderable ∧
    (sort (F + 1) s e force).1.geometry = s.geometry ∧
    (sort (F + 1) s e force).1.events = s.events := by
  have hpost := flatten_run s (F + 1) s [e] none [] rfl
    (fun o ho => by cases ho) (fun o ho => by cases ho)
    (fun c _ => rfl) hnodup
    (fun c hc => ⟨F, Nat.lt_succ_self F, by
      rcases List.mem_singleton.mp hc with rfl
      exact hht⟩)
  obtain ⟨h1, h2, h3, _, h5⟩ := hpost
  have hsort : sort (F + 1) s e force =
      ((flatten (F + 1) s [e] none []).1.modSortable e fun st =>
        { st with sorted := (flatten (F + 1) s [e] none []).2, dirty := false },
       (flatten (F + 1) s [e] none []).2) := by
    unfold sort
    simp [hrun]
  rw [List.nil_append] at h1
  refine ⟨?_, ?_, ?_, ?_, ?_, ?_, ?_, ?_, ?_⟩
  · rw [hsort]
    exact h1
  · intro x hx
    rw [hsort]
    simp only [modSortable_sgn]
    exact h3 x hx
  · intro x hx
    rw [hsort]
    simp only [modSortable_sgn]
    exact h2 x hx (fun o ho => by cases ho)
  · rw [hsort, modSortable_sortable, h5.2.1, h1]
    simp
  · intro x hx
    rw [hsort, modSortable_sortable]
    simp only [hx, if_false]
    rw [h5.2.1]
  · rw [hsort, modSortable_transform]
    exact h5.1
  · rw [hsort, modSortable_renderable]
    exact h5.2.2.1
  · rw [hsort, modSortable_geometry]
    exact h5.2.2.2.1
  · rw [hsort, modSortable_events]
    exact h5.2.2.2.2

theorem foldr_append_flatMap {α β : Type} (g : α → List β) :
    ∀ l : List α, l.foldr (fun c acc => g c ++ acc) [] = l.flatMap g
  | [] => rfl
  | a :: l => by
    rw [List.foldr_cons, foldr_append_flatMap g l, List.flatMap_cons]

theorem flatMap_congr_mem {α β : Type} {g g2 : α → List β} :
    ∀ {l : List α}, (∀ x ∈ l, g x = g2 x) → l.flatMap g = l.flatMap g2
  | [], _ => rfl
  | a :: l, h => by
    rw [List.flatMap_cons, List.flatMap_cons, h a (by simp),
      flatMap_congr_mem (fun x hx => h x (List.mem_cons_of_mem _ hx))]

/-- On a state `t` whose children arrays agree with the sorted arrays of `s`
over a subtree listing, the pre-order traversal of `t` reproduces that
listing: the sort order persists in the hierarchy, not only in the cache. -/
theorem preorder_specOf (s t : SGState) :
    ∀ (f : Nat) (c : Nat),
      (∀ x ∈ specOf s f c, (t.sgn x).children = sortChildren s ((s.sgn x).children)) →
      preorder f t c = specOf s f c
  | 0, c, _ => by simp [preorder, specOf, sortPreList]
  | f + 1, c, h => by
    have hc : (t.sgn c).children = sortChildren s ((s.sgn c).children) :=
      h c (by simp [specOf])
    rw [preorder, foldr_append_flatMap, hc, specOf]
    by_cases hch : ((s.sgn c).children).length ≠ 0
    · rw [sortPreList_succ s f _ hch, SRem]
      congr 1
      refine flatMap_congr_mem ?_
      intro d hd
      refine preorder_specOf s t f d ?_
      intro x hx
      refine h x ?_
      rw [specOf]
      refine List.mem_cons_of_mem _ ?_
      rw [sortPreList_succ s f _ hch, SRem]
      exact List.mem_flatMap.mpr ⟨d, hd, hx⟩
    · have hnil : (s.sgn c).children = [] := by
        cases hl : (s.sgn c).children with
        | nil => rfl
        | cons a l => rw [hl] at hch; simp at hch
      rw [hnil, sortPreList_nil]
      rfl

theorem sortChildren_single (s : SGState) (e : Nat) : sortChildren s [e] = [e] := rfl

theorem sortPreList_single (s : SGState) (F : Nat) (e : Nat) :
    sortPreList (F + 1) s [e] = e :: sortPreList F s ((s.sgn e).children) := by
  rw [sortPreList_succ s F [e] (by simp), sortChildren_single, SRem]
  simp [specOf]

/-- What claim C8 asserts of `sort` (lines 111–122): a cache hit when the
`Sortable` is clean and `force` unset; otherwise the flattened pre-order
listing with stable-sorted levels, cached on the `Sortable` with the dirty
flag cleared; and each sorted level is ascending by z-index, a permutation of
its input, and stable on equal z-indices. -/
def C8SortPost (F : Nat) (s : SGState) (e : Nat) (force : Bool) : Prop :=
  (((s.sortable e).dirty || force) = false →
    sort (F + 1) s e force = (s, (s.sortable e).sorted)) ∧
  (((s.sortable e).dirty || force) = true →
    (sort (F + 1) s e force).2 = e :: sortPreList F s ((s.sgn e).children) ∧
    ((sort (F + 1) s e force).1.sortable e).sorted = (sort (F + 1) s e force).2 ∧
    ((sort (F + 1) s e force).1.sortable e).dirty = false ∧
    (∀ x, x ≠ e → (sort (F + 1) s e force).1.sortable x = s.sortable x)) ∧
  (∀ l : List Nat, (∀ x ∈ l, zOk s x) →
    (sortChildren s l).Pairwise (zLe s) ∧ (sortChildren s l).Perm l ∧
    (∀ p : Nat → Bool, (∀ a b, a ∈ l → b ∈ l → p a = true → p b = true →
      qEq (s.sortable a).zIndex (s.sortable b).zIndex) →
      (sortChildren s l).filter p = l.filter p))

/-- Claim C8: `sort(node, force?)` returns a cached flattened pre-order list
of the node and its descendants with siblings stable-sorted by ascending
z-index at each level, recomputes only when the `Sortable` is dirty or
`force` is set, and caches the result on the `Sortable` with the dirty flag
cleared. Confirmed, under the source's implicit preconditions that the
subtree is a finite tree (no repeated node in the listing, height within
fuel). -/
theorem c8_sort_caches_stable_preorder (F : Nat) (s : SGState) (e : Nat) (force : Bool)
    (hnodup : (sortPreList (F + 1) s [e]).Nodup)
    (hht : htLe F s e) :
    C8SortPost F s e force := by
  refine ⟨?_, ?_, fun l hz => sortChildren_level s l hz⟩
  · intro hclean
    unfold sort
    simp [hclean]
  · intro hrun
    obtain ⟨h1, _, _, h4, h5, _⟩ := sort_recompute F s e force hnodup hht hrun
    refine ⟨by rw [h1, sortPreList_single], ?_, ?_, h5⟩
    · rw [h4, h1]
    · rw [h4]

/-- Scenario for claim C8: entity 0 (dirty `Sortable`) has children [1, 2]
with z-indices 2 and 1, so the recomputed listing is [0, 2, 1]. -/
def stateC8 : SGState :=
  { baseState with
      sgn := fun e =>
        if e = 0 then { baseSgn with children := [1, 2] }
        else if e = 1 then { baseSgn with parent := some 0 }
        else if e = 2 then { baseSgn with parent := some 0 }
        else baseSgn,
      sortable := fun e =>
        if e = 0 then { baseSortable with dirty := true }
        else if e = 1 then { baseSortable with zIndex := ⟨2, 1⟩ }
        else if e = 2 then { baseSortable with zIndex := ⟨1, 1⟩ }
        else baseSortable }

set_option maxRecDepth 40000 in
theorem c8_sort_caches_stable_preorder_witness :
    (sortPreList 2 stateC8 [0]).Nodup ∧ htLe 1 stateC8 0 ∧ C8SortPost 1 stateC8 0 false :=
  ⟨by decide, by decide,
    c8_sort_caches_stable_preorder 1 stateC8 0 false (by decide) (by decide)⟩

/-- What claim C10 asserts of a recomputing `sort` call: every listed node's
children array (the node's own and every descendant's) is overwritten in
place by its stable-sorted version — ascending z-index where the level's
z-indices are well-formed — so that the pre-order traversal of the resulting
hierarchy observes the z-index order, not the insertion order. -/
def C10SortPost (F : Nat) (s : SGState) (e : Nat) (force : Bool) : Prop :=
  ((s.sortable e).dirty || force) = true →
    e ∈ (sort (F + 1) s e force).2 ∧
    (∀ x ∈ (sort (F + 1) s e force).2,
      ((sort (F + 1) s e force).1.sgn x).children = sortChildren s ((s.sgn x).children)) ∧
    (∀ x ∈ (sort (F + 1) s e force).2, (∀ d ∈ (s.sgn x).children, zOk s d) →
      (((sort (F + 1) s e force).1.sgn x).children).Pairwise (zLe s)) ∧
    (sort (F + 1) s e force).2 = preorder F (sort (F + 1) s e force).1 e

/-- Claim C10: a recomputing `sort(node)` call persists the z-index order
into the hierarchy itself — `flatten` sorts each visited children array in
place (the array reference is the owner's `children`), so subsequent
traversals observe the sorted order. Confirmed, under the source's implicit
finite-tree preconditions. -/
theorem c10_sort_reorders_children_in_place (F : Nat) (s : SGState) (e : Nat) (force : Bool)
    (hnodup : (sortPreList (F + 1) s [e]).Nodup)
    (hht : htLe F s e) :
    C10SortPost F s e force := by
  intro hrun
  obtain ⟨h1, h2, _⟩ := sort_recompute F s e force hnodup hht hrun
  have hmem : ∀ x ∈ (sort (F + 1) s e force).2,
      ((sort (F + 1) s e force).1.sgn x).children = sortChildren s ((s.sgn x).children) := by
    intro x hx
    rw [h1] at hx
    exact (h2 x hx).1
  refine ⟨?_, hmem, ?_, ?_⟩
  · rw [h1, sortPreList_single]
    simp
  · intro x hx hzd
    rw [hmem x hx]
    exact insertionSort_pairwise _ hzd
  · have hspec : ∀ x ∈ specOf s F e,
        ((sort (F + 1) s e force).1.sgn x).children = sortChildren s ((s.sgn x).children) := by
      intro x hx
      refine hmem x ?_
      rw [h1, sortPreList_single]
      exact hx
    rw [h1, sortPreList_single]
    exact (preorder_specOf s _ F e hspec).symm

/-- Scenario for claim C10: entity 0 (dirty `Sortable`) has children
[1, 2, 3] with z-indices 2, 1, 1 — the recompute rewrites the children array
to [2, 3, 1] (stable on the equal pair) and lists [0, 2, 3, 1]. -/
def stateC10 : SGState :=
  { baseState with
      sgn := fun e =>
        if e = 0 then { baseSgn with children := [1, 2, 3] }
        else if e = 1 then { baseSgn with parent := some 0 }
        else if e = 2 then { baseSgn with parent := some 0 }
        else if e = 3 then { baseSgn with parent := some 0 }
        else baseSgn,
      sortable := fun e =>
        if e = 0 then { baseSortable with dirty := true }
        else if e = 1 then { baseSortable with zIndex := ⟨2, 1⟩ }
        else if e = 2 then { baseSortable with zIndex := ⟨1, 1⟩ }
        else if e = 3 then { baseSortable with zIndex := ⟨1, 1⟩ }
        else baseSortable }

set_option maxRecDepth 40000 in
theorem c10_sort_reorders_children_in_place_witness :
    (sortPreList 2 stateC10 [0]).Nodup ∧ htLe 1 stateC10 0 ∧ C10SortPost 1 stateC10 0 false :=
  ⟨by decide, by decide,
    c10_sort_reorders_children_in_place 1 stateC10 0 false (by decide) (by decide)⟩

theorem qAdd_den_ne {a b : Q} (ha : a.den ≠ 0) (hb : b.den ≠ 0) : (qAdd a b).den ≠ 0 :=
  qReduce_den_ne (mul_ne_zero ha hb)

theorem qSub_den_ne {a b : Q} (ha : a.den ≠ 0) (hb : b.den ≠ 0) : (qSub a b).den ≠ 0 :=
  qReduce_den_ne (mul_ne_zero ha hb)

theorem qMul_den_ne {a b : Q} (ha : a.den ≠ 0) (hb : b.den ≠ 0) : (qMul a b).den ≠ 0 :=
  qReduce_den_ne (mul_ne_zero ha hb)

theorem qDiv_den_ne {a b : Q} (ha : a.den ≠ 0) (hb : b.num ≠ 0) : (qDiv a b).den ≠ 0 :=
  qReduce_den_ne (mul_ne_zero ha hb)

theorem qNeg_den_ne {a : Q} (ha : a.den ≠ 0) : (qNeg a).den ≠ 0 := ha

theorem q_one_den_ne : (1 : Q).den ≠ 0 := one_ne_zero

theorem q_one_toRat : (1 : Q).toRat = 1 := by
  show ((1 : Int) : ℚ) / ((1 : Int) : ℚ) = 1
  norm_num

theorem qPos_iff_toRat (y : Q) : qPos y ↔ 0 < y.toRat := by
  rw [qPos, Q.toRat, div_pos_iff, mul_pos_iff]
  constructor
  · rintro (⟨h1, h2⟩ | ⟨h1, h2⟩)
    · exact Or.inl ⟨by exact_mod_cast h1, by exact_mod_cast h2⟩
    · exact Or.inr ⟨by exact_mod_cast h1, by exact_mod_cast h2⟩
  · rintro (⟨h1, h2⟩ | ⟨h1, h2⟩)
    · exact Or.inl ⟨by exact_mod_cast h1, by exact_mod_cast h2⟩
    · exact Or.inr ⟨by exact_mod_cast h1, by exact_mod_cast h2⟩

theorem q_num_ne_of_toRat_ne {a : Q} (h : a.toRat ≠ 0) : a.num ≠ 0 := by
  intro hn
  refine h ?_
  rw [Q.toRat, hn]
  simp

theorem qSqrt_den_ne {a : Q} (h : a.den ≠ 0) : (qSqrt a).den ≠ 0 := by
  rw [qSqrt]
  by_cases hc : 0 ≤ a.num * a.den ∧ isqrtN (a.num * a.den).toNat * isqrtN (a.num * a.den).toNat
      = (a.num * a.den).toNat
  · simp only [hc, if_true]
    simpa using h
  · simp only [hc, if_false]
    exact one_ne_zero


theorem locRot_modTransform (s : SGState) (e x : Nat) (f : Transform → Transform)
    (hf : ∀ t, (f t).localRotation = t.localRotation) :
    ((s.modTransform e f).transform x).localRotation = (s.transform x).localRotation := by
  rw [modTransform_transform]
  by_cases hx : x = e
  · rw [if_pos hx, hf]
  · rw [if_neg hx]

theorem locRot_getLocalTransform (s : SGState) (e x : Nat) :
    (((getLocalTransform s e).1).transform x).localRotation =
      (s.transform x).localRotation := by
  unfold getLocalTransform
  by_cases h : (s.transform e).localDirtyFlag
  · simp only [h, if_true]
    exact locRot_modTransform s e x _ (fun t => rfl)
  · simp [h]

theorem locRot_updateTransform (s : SGState) (e x : Nat) :
    ((updateTransform s e).transform x).localRotation = (s.transform x).localRotation := by
  unfold updateTransform
  by_cases h1 : (s.transform e).localDirtyFlag <;>
    by_cases h2 : ((if (s.transform e).localDirtyFlag then
        (getLocalTransform s e).1 else s).transform e).dirtyFlag <;>
    simp [h1] at h2 ⊢ <;> simp [h2]
  · refine Eq.trans (locRot_modTransform _ e x _ (fun t => rfl)) ?_
    rw [locRot_getLocalTransform, locRot_getLocalTransform]
  · exact locRot_getLocalTransform s e x
  · refine Eq.trans (locRot_modTransform _ e x _ (fun t => rfl)) ?_
    rw [locRot_getLocalTransform]

theorem locRot_getWorldTransform : ∀ (fuel : Nat) (s : SGState) (e x : Nat),
    (((getWorldTransform fuel s e).1).transform x).localRotation =
      (s.transform x).localRotation := by
  intro fuel
  induction fuel with
  | zero => intro s e x; rfl
  | succ fuel ih =>
    intro s e x
    unfold getWorldTransform
    by_cases h : ¬(s.transform e).localDirtyFlag ∧ ¬(s.transform e).dirtyFlag
    · simp [h]
    · simp only [h, if_false]
      cases hp : (s.sgn e).parent with
      | none => simp [locRot_updateTransform]
      | some p => simp [locRot_updateTransform, ih]

theorem locRot_getPosition (fuel : Nat) (s : SGState) (e x : Nat) :
    (((getPosition fuel s e).1).transform x).localRotation =
      (s.transform x).localRotation := by
  show (((getWorldTransform fuel s e).1.modTransform e fun t =>
      { t with position := mat4GetTranslation (getWorldTransform fuel s e).2 }).transform
        x).localRotation = (s.transform x).localRotation
  rw [locRot_modTransform ((getWorldTransform fuel s e).1) e x
    (fun t => { t with position := mat4GetTranslation (getWorldTransform fuel s e).2 })
    (fun t => rfl)]
  rw [locRot_getWorldTransform]

theorem locRot_getRotation (fuel : Nat) (s : SGState) (e x : Nat) :
    (((getRotation fuel s e).1).transform x).localRotation =
      (s.transform x).localRotation := by
  show (((getWorldTransform fuel s e).1.modTransform e fun t =>
      { t with rotation := mat4GetRotation (getWorldTransform fuel s e).2 }).transform
        x).localRotation = (s.transform x).localRotation
  rw [locRot_modTransform ((getWorldTransform fuel s e).1) e x
    (fun t => { t with rotation := mat4GetRotation (getWorldTransform fuel s e).2 })
    (fun t => rfl)]
  rw [locRot_getWorldTransform]

theorem locRot_updateRenderableAABB (fuel : Nat) (s : SGState) (e x : Nat) :
    ((updateRenderableAABB fuel s e).transform x).localRotation =
      (s.transform x).localRotation := by
  unfold updateRenderableAABB
  cases h : s.renderable e with
  | none => rfl
  | some r => simp [locRot_getWorldTransform]

theorem locRot_dirtifyAABB (fuel : Nat) (s : SGState) (e x : Nat) :
    ((dirtifyAABB fuel s e).transform x).localRotation = (s.transform x).localRotation := by
  unfold dirtifyAABB
  by_cases h : (s.renderable e).isSome <;> simp [h, locRot_updateRenderableAABB]

theorem transform_unfreeze : ∀ (fuel : Nat) (s : SGState) (e : Nat),
    (unfreezeParentToRoot fuel s e).transform = s.transform := by
  intro fuel
  induction fuel with
  | zero => intro s e; rfl
  | succ fuel ih =>
    intro s e
    unfold unfreezeParentToRoot
    cases hp : ((s.modSgn e fun n => { n with frozen := false }).sgn e).parent with
    | none => simp only [hp]; rfl
    | some p => simp only [hp]; rw [ih]; rfl

theorem locRot_foldl {β : Type} (body : SGState → β → SGState)
    (h : ∀ s b x, ((body s b).transform x).localRotation = (s.transform x).localRotation) :
    ∀ (l : List β) (s : SGState) (x : Nat),
      ((l.foldl body s).transform x).localRotation = (s.transform x).localRotation
  | [], _, _ => rfl
  | b :: l, s, x => by
    rw [List.foldl_cons, locRot_foldl body h l (body s b) x, h]

theorem locRot_dwi (wf : Nat) : ∀ (df : Nat) (s : SGState) (e x : Nat),
    ((dirtifyWorldInternal wf df s e).transform x).localRotation =
      (s.transform x).localRotation := by
  intro df
  induction df with
  | zero => intro s e x; rfl
  | succ df ih =>
    intro s e x
    unfold dirtifyWorldInternal
    by_cases h : ¬(s.transform e).dirtyFlag
    · simp only [h, if_true]
      rw [locRot_dirtifyAABB]
      refine Eq.trans (locRot_foldl _ (fun s c x => ?_) _ _ x) ?_
      · by_cases hc : ¬(s.transform c).dirtyFlag
        · simp only [hc, if_true]; exact ih s c x
        · simp only [hc, if_false]
      · exact locRot_modTransform _ e x _ (fun t => rfl)
    · simp only [h, if_false]
      rw [locRot_dirtifyAABB]

theorem locRot_setDirty_true (wf df : Nat) (s : SGState) (e x : Nat) :
    ((setDirty wf df s e true).transform x).localRotation = (s.transform x).localRotation := by
  unfold setDirty
  by_cases h : ¬(s.transform e).dirtyFlag <;>
    simp [h, locRot_dwi, transform_unfreeze]

theorem locRot_setLocalDirty_true (wf df : Nat) (s : SGState) (e x : Nat) :
    ((setLocalDirty wf df s e true).transform x).localRotation =
      (s.transform x).localRotation := by
  unfold setLocalDirty
  by_cases h1 : ¬(s.transform e).localDirtyFlag
  · simp only [if_true, h1]
    by_cases h2 : ¬((s.modTransform e fun t =>
        { t with localDirtyFlag := true }).transform e).dirtyFlag
    · simp only [h2, if_true, Bool.false_eq_true, not_false_iff]
      rw [locRot_setDirty_true]
      exact locRot_modTransform s e x _ (fun t => rfl)
    · rw [not_not] at h2
      simp only [h2, not_true, if_false, Bool.false_eq_true, not_false_iff, if_true]
      rw [locRot_dirtifyAABB]
      exact locRot_modTransform s e x _ (fun t => rfl)
  · simp only [if_true, h1, if_false]

theorem qMul3_den_ne {a b c : Q} (ha : a.den ≠ 0) (hb : b.den ≠ 0) (hc : c.den ≠ 0) :
    (qMul (qMul a b) c).den ≠ 0 := qMul_den_ne (qMul_den_ne ha hb) hc

theorem qMul3_toRat (a b c : Q) :
    (qMul (qMul a b) c).toRat = a.toRat * b.toRat * c.toRat := by
  rw [qMul_toRat, qMul_toRat]

theorem quatDot_toRat (a : Quat) (hx : a.x.den ≠ 0) (hy : a.y.den ≠ 0) (hz : a.z.den ≠ 0)
    (hw : a.w.den ≠ 0) :
    (quatDot a).toRat = a.x.toRat * a.x.toRat + a.y.toRat * a.y.toRat +
      a.z.toRat * a.z.toRat + a.w.toRat * a.w.toRat := by
  show (qAdd (qAdd (qAdd (qMul a.x a.x) (qMul a.y a.y)) (qMul a.z a.z)) (qMul a.w a.w)).toRat = _
  rw [qAdd_toRat (qAdd_den_ne (qAdd_den_ne (qMul_den_ne hx hx) (qMul_den_ne hy hy))
      (qMul_den_ne hz hz)) (qMul_den_ne hw hw),
    qAdd_toRat (qAdd_den_ne (qMul_den_ne hx hx) (qMul_den_ne hy hy)) (qMul_den_ne hz hz),
    qAdd_toRat (qMul_den_ne hx hx) (qMul_den_ne hy hy),
    qMul_toRat, qMul_toRat, qMul_toRat, qMul_toRat]

theorem quatDot_den_ne {a : Quat} (hx : a.x.den ≠ 0) (hy : a.y.den ≠ 0) (hz : a.z.den ≠ 0)
    (hw : a.w.den ≠ 0) : (quatDot a).den ≠ 0 :=
  qAdd_den_ne (qAdd_den_ne (qAdd_den_ne (qMul_den_ne hx hx) (qMul_den_ne hy hy))
    (qMul_den_ne hz hz)) (qMul_den_ne hw hw)

theorem quatFromEuler_den (sinH cosH : Q → Q) (hden : ∀ t, (sinH t).den ≠ 0 ∧ (cosH t).den ≠ 0)
    (deg : Vec3) :
    (quatFromEuler sinH cosH deg).x.den ≠ 0 ∧ (quatFromEuler sinH cosH deg).y.den ≠ 0 ∧
    (quatFromEuler sinH cosH deg).z.den ≠ 0 ∧ (quatFromEuler sinH cosH deg).w.den ≠ 0 :=
  ⟨qSub_den_ne (qMul3_den_ne (hden deg.x).1 (hden deg.y).2 (hden deg.z).2)
      (qMul3_den_ne (hden deg.x).2 (hden deg.y).1 (hden deg.z).1),
   qAdd_den_ne (qMul3_den_ne (hden deg.x).2 (hden deg.y).1 (hden deg.z).2)
      (qMul3_den_ne (hden deg.x).1 (hden deg.y).2 (hden deg.z).1),
   qSub_den_ne (qMul3_den_ne (hden deg.x).2 (hden deg.y).2 (hden deg.z).1)
      (qMul3_den_ne (hden deg.x).1 (hden deg.y).1 (hden deg.z).2),
   qAdd_den_ne (qMul3_den_ne (hden deg.x).2 (hden deg.y).2 (hden deg.z).2)
      (qMul3_den_ne (hden deg.x).1 (hden deg.y).1 (hden deg.z).1)⟩

theorem quatMul_den (a b : Quat)
    (hax : a.x.den ≠ 0) (hay : a.y.den ≠ 0) (haz : a.z.den ≠ 0) (haw : a.w.den ≠ 0)
    (hbx : b.x.den ≠ 0) (hby : b.y.den ≠ 0) (hbz : b.z.den ≠ 0) (hbw : b.w.den ≠ 0) :
    (quatMul a b).x.den ≠ 0 ∧ (quatMul a b).y.den ≠ 0 ∧
    (quatMul a b).z.den ≠ 0 ∧ (quatMul a b).w.den ≠ 0 :=
  ⟨qSub_den_ne (qAdd_den_ne (qAdd_den_ne (qMul_den_ne hax hbw) (qMul_den_ne haw hbx))
      (qMul_den_ne hay hbz)) (qMul_den_ne haz hby),
   qSub_den_ne (qAdd_den_ne (qAdd_den_ne (qMul_den_ne hay hbw) (qMul_den_ne haw hby))
      (qMul_den_ne haz hbx)) (qMul_den_ne hax hbz),
   qSub_den_ne (qAdd_den_ne (qAdd_den_ne (qMul_den_ne haz hbw) (qMul_den_ne haw hbz))
      (qMul_den_ne hax hby)) (qMul_den_ne hay hbx),
   qSub_den_ne (qSub_den_ne (qSub_den_ne (qMul_den_ne haw hbw) (qMul_den_ne hax hbx))
      (qMul_den_ne hay hby)) (qMul_den_ne haz hbz)⟩

theorem quatFromEuler_unit (sinH cosH : Q → Q)
    (hden : ∀ t, (sinH t).den ≠ 0 ∧ (cosH t).den ≠ 0)
    (htrig : ∀ t, qEq (sinH t * sinH t + cosH t * cosH t) 1) (deg : Vec3) :
    qEq (quatDot (quatFromEuler sinH cosH deg)) 1 := by
  obtain ⟨hdx, hdy, hdz, hdw⟩ := quatFromEuler_den sinH cosH hden deg
  have htr : ∀ t, (sinH t).toRat * (sinH t).toRat + (cosH t).toRat * (cosH t).toRat = 1 := by
    intro t
    have h := (qEq_iff_toRat (qAdd_den_ne (qMul_den_ne (hden t).1 (hden t).1)
        (qMul_den_ne (hden t).2 (hden t).2)) q_one_den_ne).mp (htrig t)
    rw [q_one_toRat] at h
    rw [← h]
    show _ = (qAdd (qMul (sinH t) (sinH t)) (qMul (cosH t) (cosH t))).toRat
    rw [qAdd_toRat (qMul_den_ne (hden t).1 (hden t).1) (qMul_den_ne (hden t).2 (hden t).2),
      qMul_toRat, qMul_toRat]
  have hex : (quatFromEuler sinH cosH deg).x.toRat =
      (sinH deg.x).toRat * (cosH deg.y).toRat * (cosH deg.z).toRat -
      (cosH deg.x).toRat * (sinH deg.y).toRat * (sinH deg.z).toRat := by
    show (qSub (qMul (qMul (sinH deg.x) (cosH deg.y)) (cosH deg.z))
        (qMul (qMul (cosH deg.x) (sinH deg.y)) (sinH deg.z))).toRat = _
    rw [qSub_toRat (qMul3_den_ne (hden deg.x).1 (hden deg.y).2 (hden deg.z).2)
      (qMul3_den_ne (hden deg.x).2 (hden deg.y).1 (hden deg.z).1), qMul3_toRat, qMul3_toRat]
  have hey : (quatFromEuler sinH cosH deg).y.toRat =
      (cosH deg.x).toRat * (sinH deg.y).toRat * (cosH deg.z).toRat +
      (sinH deg.x).toRat * (cosH deg.y).toRat * (sinH deg.z).toRat := by
    show (qAdd (qMul (qMul (cosH deg.x) (sinH deg.y)) (cosH deg.z))
        (qMul (qMul (sinH deg.x) (cosH deg.y)) (sinH deg.z))).toRat = _
    rw [qAdd_toRat (qMul3_den_ne (hden deg.x).2 (hden deg.y).1 (hden deg.z).2)
      (qMul3_den_ne (hden deg.x).1 (hden deg.y).2 (hden deg.z).1), qMul3_toRat, qMul3_toRat]
  have hez : (quatFromEuler sinH cosH deg).z.toRat =
      (cosH deg.x).toRat * (cosH deg.y).toRat * (sinH deg.z).toRat -
      (sinH deg.x).toRat * (sinH deg.y).toRat * (cosH deg.z).toRat := by
    show (qSub (qMul (qMul (cosH deg.x) (cosH deg.y)) (sinH deg.z))
        (qMul (qMul (sinH deg.x) (sinH deg.y)) (cosH deg.z))).toRat = _
    rw [qSub_toRat (qMul3_den_ne (hden deg.x).2 (hden deg.y).2 (hden deg.z).1)
      (qMul3_den_ne (hden deg.x).1 (hden deg.y).1 (hden deg.z).2), qMul3_toRat, qMul3_toRat]
  have hew : (quatFromEuler sinH cosH deg).w.toRat =
      (cosH deg.x).toRat * (cosH deg.y).toRat * (cosH deg.z).toRat +
      (sinH deg.x).toRat * (sinH deg.y).toRat * (sinH deg.z).toRat := by
    show (qAdd (qMul (qMul (cosH deg.x) (cosH deg.y)) (cosH deg.z))
        (qMul (qMul (sinH deg.x) (sinH deg.y)) (sinH deg.z))).toRat = _
    rw [qAdd_toRat (qMul3_den_ne (hden deg.x).2 (hden deg.y).2 (hden deg.z).2)
      (qMul3_den_ne (hden deg.x).1 (hden deg.y).1 (hden deg.z).1), qMul3_toRat, qMul3_toRat]
  rw [qEq_iff_toRat (quatDot_den_ne hdx hdy hdz hdw) q_one_den_ne, q_one_toRat,
    quatDot_toRat _ hdx hdy hdz hdw, hex, hey, hez, hew]
  have key : ∀ sx cx sy cy sz cz : ℚ, sx * sx + cx * cx = 1 → sy * sy + cy * cy = 1 →
      sz * sz + cz * cz = 1 →
      (sx * cy * cz - cx * sy * sz) * (sx * cy * cz - cx * sy * sz) +
      (cx * sy * cz + sx * cy * sz) * (cx * sy * cz + sx * cy * sz) +
      (cx * cy * sz - sx * sy * cz) * (cx * cy * sz - sx * sy * cz) +
      (cx * cy * cz + sx * sy * sz) * (cx * cy * cz + sx * sy * sz) = 1 := by
    intro sx cx sy cy sz cz h1 h2 h3
    have hh : (sx * cy * cz - cx * sy * sz) * (sx * cy * cz - cx * sy * sz) +
        (cx * sy * cz + sx * cy * sz) * (cx * sy * cz + sx * cy * sz) +
        (cx * cy * sz - sx * sy * cz) * (cx * cy * sz - sx * sy * cz) +
        (cx * cy * cz + sx * sy * sz) * (cx * cy * cz + sx * sy * sz) =
        (sx * sx + cx * cx) * (sy * sy + cy * cy) * (sz * sz + cz * cz) := by ring
    rw [hh, h1, h2, h3]
    norm_num
  exact key _ _ _ _ _ _ (htr deg.x) (htr deg.y) (htr deg.z)

theorem quatNormalize_unit (a : Quat) (hx : a.x.den ≠ 0) (hy : a.y.den ≠ 0)
    (hz : a.z.den ≠ 0) (hw : a.w.den ≠ 0)
    (hpos : qPos (quatDot a))
    (hsq : qEq (qMul (qSqrt (quatDot a)) (qSqrt (quatDot a))) (quatDot a)) :
    qEq (quatDot (quatNormalize a)) 1 := by
  have hdd : (quatDot a).den ≠ 0 := quatDot_den_ne hx hy hz hw
  have hrd : (qSqrt (quatDot a)).den ≠ 0 := qSqrt_den_ne hdd
  have hdpos : 0 < (quatDot a).toRat := (qPos_iff_toRat _).mp hpos
  have hr2 : (qSqrt (quatDot a)).toRat * (qSqrt (quatDot a)).toRat = (quatDot a).toRat := by
    have h := (qEq_iff_toRat (qMul_den_ne hrd hrd) hdd).mp hsq
    rw [← h, qMul_toRat]
  have hrne : (qSqrt (quatDot a)).toRat ≠ 0 := by
    intro h0
    rw [h0, mul_zero] at hr2
    exact absurd hr2.symm (ne_of_gt hdpos)
  have hrnum : (qSqrt (quatDot a)).num ≠ 0 := q_num_ne_of_toRat_ne hrne
  have hld : (qDiv 1 (qSqrt (quatDot a))).den ≠ 0 := qDiv_den_ne q_one_den_ne hrnum
  have hnorm : quatNormalize a =
      ⟨qMul a.x (qDiv 1 (qSqrt (quatDot a))), qMul a.y (qDiv 1 (qSqrt (quatDot a))),
       qMul a.z (qDiv 1 (qSqrt (quatDot a))), qMul a.w (qDiv 1 (qSqrt (quatDot a)))⟩ := by
    show (⟨a.x * (if qPos (quatDot a) then qDiv 1 (qSqrt (quatDot a)) else quatDot a),
           a.y * (if qPos (quatDot a) then qDiv 1 (qSqrt (quatDot a)) else quatDot a),
           a.z * (if qPos (quatDot a) then qDiv 1 (qSqrt (quatDot a)) else quatDot a),
           a.w * (if qPos (quatDot a) then qDiv 1 (qSqrt (quatDot a)) else quatDot a)⟩ : Quat) = _
    rw [if_pos hpos]
    rfl
  rw [hnorm]
  rw [qEq_iff_toRat (quatDot_den_ne (qMul_den_ne hx hld) (qMul_den_ne hy hld)
      (qMul_den_ne hz hld) (qMul_den_ne hw hld)) q_one_den_ne, q_one_toRat,
    quatDot_toRat _ (qMul_den_ne hx hld) (qMul_den_ne hy hld) (qMul_den_ne hz hld)
      (qMul_den_ne hw hld)]
  simp only [qMul_toRat, qDiv_toRat, q_one_toRat]
  have hexp : a.x.toRat * (1 / (qSqrt (quatDot a)).toRat) *
        (a.x.toRat * (1 / (qSqrt (quatDot a)).toRat)) +
      a.y.toRat * (1 / (qSqrt (quatDot a)).toRat) *
        (a.y.toRat * (1 / (qSqrt (quatDot a)).toRat)) +
      a.z.toRat * (1 / (qSqrt (quatDot a)).toRat) *
        (a.z.toRat * (1 / (qSqrt (quatDot a)).toRat)) +
      a.w.toRat * (1 / (qSqrt (quatDot a)).toRat) *
        (a.w.toRat * (1 / (qSqrt (quatDot a)).toRat)) =
      (a.x.toRat * a.x.toRat + a.y.toRat * a.y.toRat + a.z.toRat * a.z.toRat +
        a.w.toRat * a.w.toRat) /
        ((qSqrt (quatDot a)).toRat * (qSqrt (quatDot a)).toRat) := by
    field_simp
  rw [hexp, hr2, ← quatDot_toRat a hx hy hz hw]
  exact div_self (ne_of_gt hdpos)

/-- Claim C6 (amended): only `rotate` and `rotateLocal` renormalize after
composition — their stored local rotation is unit whenever the normalize step
divides by an exact square root (the positive perfect-square case, which is
where the model agrees with IEEE sqrt) — and `setLocalEulerAngles` stores the
Euler quaternion, unit for any exact half-angle trigonometric oracle. The
world-space `setEulerAngles` has no such guarantee (see the counterexample):
it never normalizes and its stored product is unit only when the parent's
extracted world rotation is. `rotate` on a root delegates to `rotateLocal`. -/
theorem c6_rotation_ops_keep_unit_quaternions (sinH cosH : Q → Q) (wf df : Nat)
    (s : SGState) (e : Nat) (deg : Vec3)
    (hden : ∀ t, (sinH t).den ≠ 0 ∧ (cosH t).den ≠ 0)
    (htrig : ∀ t, qEq (sinH t * sinH t + cosH t * cosH t) 1)
    (hrx : ((s.transform e).localRotation).x.den ≠ 0)
    (hry : ((s.transform e).localRotation).y.den ≠ 0)
    (hrz : ((s.transform e).localRotation).z.den ≠ 0)
    (hrw : ((s.transform e).localRotation).w.den ≠ 0)
    (hpos : qPos (quatDot (quatMul ((s.transform e).localRotation)
      (quatFromEuler sinH cosH deg))))
    (hsq : qEq (qMul
        (qSqrt (quatDot (quatMul ((s.transform e).localRotation)
          (quatFromEuler sinH cosH deg))))
        (qSqrt (quatDot (quatMul ((s.transform e).localRotation)
          (quatFromEuler sinH cosH deg)))))
      (quatDot (quatMul ((s.transform e).localRotation)
        (quatFromEuler sinH cosH deg)))) :
    qEq (quatDot (((rotateLocal sinH cosH wf df s e deg).transform e).localRotation)) 1 ∧
    qEq (quatDot (((setLocalEulerAngles sinH cosH wf df s e deg).transform
      e).localRotation)) 1 ∧
    ((s.sgn e).parent = none →
      rotate sinH cosH wf df s e deg = rotateLocal sinH cosH wf df s e deg) := by
  obtain ⟨hfx, hfy, hfz, hfw⟩ := quatFromEuler_den sinH cosH hden deg
  obtain ⟨hmx, hmy, hmz, hmw⟩ := quatMul_den _ _ hrx hry hrz hrw hfx hfy hfz hfw
  refine ⟨?_, ?_, ?_⟩
  · have h1 : ((rotateLocal sinH cosH wf df s e deg).transform e).localRotation =
        quatNormalize (quatMul ((s.transform e).localRotation)
          (quatFromEuler sinH cosH deg)) := by
      show ((setLocalDirty wf df (s.modTransform e fun t =>
          { t with localRotation := quatNormalize (quatMul t.localRotation
              (quatFromEuler sinH cosH deg)) }) e true).transform e).localRotation = _
      rw [locRot_setLocalDirty_true, modTransform_transform]
      simp
    rw [h1]
    exact quatNormalize_unit _ hmx hmy hmz hmw hpos hsq
  · have h2 : ((setLocalEulerAngles sinH cosH wf df s e deg).transform e).localRotation =
        quatFromEuler sinH cosH deg := by
      show ((setLocalDirty wf df (s.modTransform e fun t =>
          { t with localRotation := quatFromEuler sinH cosH deg }) e
            true).transform e).localRotation = _
      rw [locRot_setLocalDirty_true, modTransform_transform]
      simp
    rw [h2]
    exact quatFromEuler_unit sinH cosH hden htrig deg
  · intro hp
    unfold rotate
    rw [hp]

set_option maxRecDepth 40000 in
theorem c6_rotation_ops_keep_unit_quaternions_witness :
    (∀ t, (sinHalfOracle t).den ≠ 0 ∧ (cosHalfOracle t).den ≠ 0) ∧
    (∀ t, qEq (sinHalfOracle t * sinHalfOracle t + cosHalfOracle t * cosHalfOracle t) 1) ∧
    qPos (quatDot (quatMul ((baseState.transform 0).localRotation)
      (quatFromEuler sinHalfOracle cosHalfOracle ⟨0, 0, 90⟩))) ∧
    qEq (quatDot (((rotateLocal sinHalfOracle cosHalfOracle 2 2 baseState 0
      ⟨0, 0, 90⟩).transform 0).localRotation)) 1 ∧
    qEq (quatDot (((setLocalEulerAngles sinHalfOracle cosHalfOracle 2 2 baseState 0
      ⟨0, 0, 90⟩).transform 0).localRotation)) 1 :=
  have hden : ∀ t, (sinHalfOracle t).den ≠ 0 ∧ (cosHalfOracle t).den ≠ 0 := fun t => by
    unfold sinHalfOracle cosHalfOracle
    by_cases h : t = 0 <;> simp [h] <;> decide
  have htrig : ∀ t,
      qEq (sinHalfOracle t * sinHalfOracle t + cosHalfOracle t * cosHalfOracle t) 1 :=
    fun t => by
      unfold sinHalfOracle cosHalfOracle
      by_cases h : t = 0 <;> simp [h] <;> decide
  have main := c6_rotation_ops_keep_unit_quaternions sinHalfOracle cosHalfOracle 2 2
    baseState 0 ⟨0, 0, 90⟩ hden htrig (by decide) (by decide) (by decide) (by decide)
    (by decide) (by decide)
  ⟨hden, htrig, by decide, main.1, main.2.1⟩

def stateC1 : SGState :=
  { baseState with
      sgn := fun e =>
        if e = 0 then { baseSgn with children := [1] }
        else if e = 1 then { baseSgn with parent := some 0 }
        else baseSgn,
      transform := fun e =>
        if e = 0 then
          { baseT with localScale := ⟨2, 2, 1⟩,
                       localTransform := ⟨2,0,0,0, 0,2,0,0, 0,0,1,0, 0,0,0,1⟩,
                       worldTransform := ⟨2,0,0,0, 0,2,0,0, 0,0,1,0, 0,0,0,1⟩ }
        else if e = 1 then
          { baseT with worldTransform := ⟨2,0,0,0, 0,2,0,0, 0,0,1,0, 0,0,0,1⟩ }
        else baseT,
      renderable := fun e => if e = 1 then some { aabb := none, dirty := false } else none,
      geometry := fun _ => { aabb := { lo := ⟨-1,-1,0⟩, hi := ⟨1,1,0⟩ } } }

def stateC3 : SGState :=
  { baseState with transform := fun e =>
      if e = 0 then
        { baseT with localScale := ⟨2, 2, 1⟩,
                     localTransform := ⟨2,0,0,0, 0,2,0,0, 0,0,1,0, 0,0,0,1⟩,
                     worldTransform := ⟨2,0,0,0, 0,2,0,0, 0,0,1,0, 0,0,0,1⟩ }
      else baseT }

set_option maxRecDepth 40000 in
/-- Claim C1: after any sequence of service mutations, `getWorldTransform(n)`
is claimed to equal `getWorldTransform(parent(n)) * getLocalTransform(n)`
(just `getLocalTransform(n)` for a root). One `detach` refutes it: in the
pre-state the identity holds for the parented entity 1 (first conjunct), but
`detach(1)` bakes the world matrix into the local TRS fields without marking
local-dirty, and the Renderable AABB refresh inside the dirty cascade then
re-cleans entity 1 using its stale cached local matrix — leaving a clean root
whose cached world transform is still the old parent-composed scale(2,2,1)
while `getLocalTransform` returns the identity. -/
theorem c1_detach_breaks_world_composition :
    mat4Eq (getWorldTransform 3 stateC1 1).2
      (mat4Multiply (getWorldTransform 3 (getWorldTransform 3 stateC1 1).1 0).2
        (getLocalTransform (getWorldTransform 3 (getWorldTransform 3 stateC1 1).1 0).1 1).2) ∧
    ((detach 3 3 stateC1 1).sgn 1).parent = none ∧
    ((detach 3 3 stateC1 1).transform 1).dirtyFlag = false ∧
    ((detach 3 3 stateC1 1).transform 1).localDirtyFlag = false ∧
    ¬ mat4Eq (getWorldTransform 3 (detach 3 3 stateC1 1) 1).2
      (getLocalTransform (getWorldTransform 3 (detach 3 3 stateC1 1) 1).1 1).2 := by
  decide

set_option maxRecDepth 40000 in
/-- Claim C3: the cached-matrix invariant is claimed to hold after every
service operation. `setOrigin` refutes the local half: its `setLocalDirty`
call is commented out in the source, so after `setOrigin(0, (1,0,0))` on an
entity with local scale (2,2,1) the local-dirty flag is still false while the
cached local matrix (translation column 0) no longer equals the
TRS-with-origin composition of the stored fields (translation column −1);
`getLocalTransform` keeps returning the stale cache. The pre-state satisfied
the invariant (first conjunct). -/
theorem c3_setOrigin_breaks_cached_matrix_invariant :
    mat4Eq ((stateC3.transform 0).localTransform)
      (mat4FromRTSOrigin ((stateC3.transform 0)).localRotation
        ((stateC3.transform 0)).localPosition
        ((stateC3.transform 0)).localScale ((stateC3.transform 0)).origin) ∧
    ((setOrigin stateC3 0 ⟨1, 0, 0⟩).transform 0).localDirtyFlag = false ∧
    ¬ mat4Eq (((setOrigin stateC3 0 ⟨1, 0, 0⟩).transform 0).localTransform)
      (mat4FromRTSOrigin (((setOrigin stateC3 0 ⟨1, 0, 0⟩).transform 0)).localRotation
        (((setOrigin stateC3 0 ⟨1, 0, 0⟩).transform 0)).localPosition
        (((setOrigin stateC3 0 ⟨1, 0, 0⟩).transform 0)).localScale
        (((setOrigin stateC3 0 ⟨1, 0, 0⟩).transform 0)).origin) ∧
    mat4Eq (getLocalTransform (setOrigin stateC3 0 ⟨1, 0, 0⟩) 0).2
      ((stateC3.transform 0).localTransform) := by
  decide
